import Mathlib

/-!
Shallow embedding of the smem2 measurement and aggregation engine
(`src/smem2/smem2.py`). Python dictionaries are modelled as insertion-ordered
association lists, numeric dictionary values as rationals (Python mixes ints
and floats in the mapping records), raised exceptions as `Option` results, and
the outside world (the /proc filesystem, external tools, and the `re` module)
as an explicit `Env` record of query functions.
-/

namespace Smem2

/-! Exact rational arithmetic for the Python int/float values, written with
`mkRat` so that evaluation stays within kernel-computable operations. -/

/-- A Python int seen as a rational. -/
def qOfInt (n : Int) : ℚ := mkRat n 1

/-- A Python count seen as a rational. -/
def qOfNat (n : Nat) : ℚ := mkRat n 1

/-- Python `a + b` on numbers. -/
def qadd (a b : ℚ) : ℚ :=
  mkRat (a.num * b.den + b.num * a.den) (a.den * b.den)

/-- Python `a - b` on numbers. -/
def qsub (a b : ℚ) : ℚ :=
  mkRat (a.num * b.den - b.num * a.den) (a.den * b.den)

/-- Python `a * b` on numbers. -/
def qmul (a b : ℚ) : ℚ :=
  mkRat (a.num * b.num) (a.den * b.den)

/-- Python `a / n` for a positive integer literal divisor (the only division
shape the source uses on float values). -/
def qdivNat (a : ℚ) (n : Nat) : ℚ :=
  mkRat a.num (a.den * n)

/-- Python `sum` over a number list (left fold from 0). -/
def qsum (l : List ℚ) : ℚ :=
  l.foldl qadd (qOfInt 0)

/-- Python `a <= b` on numbers. -/
def qleB (a b : ℚ) : Bool :=
  a.num * b.den ≤ b.num * a.den

/-- Python `max(a, b)` on numbers. -/
def qmax (a b : ℚ) : ℚ :=
  if qleB a b then b else a

/-- Models Python `int(q)` on a number: truncation toward zero (`Int.tdiv` is
T-division, matching Python's truncating `int()` on the reduced fraction). -/
def pyTrunc (q : ℚ) : Int :=
  Int.tdiv q.num (q.den : Int)

/-! Structural string primitives (the corresponding core functions are
defined by well-founded recursion, which blocks kernel evaluation). -/

/-- Split a character list at every separator satisfying `p`, keeping empty
segments, as Python `str.split(sep)` does. -/
def splitChars (p : Char → Bool) : List Char → List Char → List (List Char)
  | [], acc => [acc.reverse]
  | c :: rest, acc =>
    if p c then acc.reverse :: splitChars p rest []
    else splitChars p rest (c :: acc)

/-- Split a string at every occurrence of one separator character. -/
def pySplitChar (s : String) (sep : Char) : List String :=
  (splitChars (fun c => c = sep) s.data []).map String.mk

/-- Whether a character counts as whitespace for Python `str.split()`. -/
def isPyWhite (c : Char) : Bool :=
  c = ' ' ∨ c = '\t' ∨ c = '\n' ∨ c = '\r'

/-- Models Python `str.split()` with no argument: split on whitespace runs,
dropping empty pieces. -/
def pysplit (s : String) : List String :=
  ((splitChars isPyWhite s.data []).map String.mk).filter (· ≠ "")

/-- Drop the last `n` characters (Python `s[:-n]` for non-empty `s`, and
`""` stays `""`). -/
def dropRightStr (s : String) (n : Nat) : String :=
  String.mk (s.data.take (s.data.length - n))

/-- Drop the first `n` characters (Python `s[n:]`). -/
def dropLeftStr (s : String) (n : Nat) : String :=
  String.mk (s.data.drop n)

/-- Lower-case a string (ASCII, as the smaps field names need). -/
def toLowerStr (s : String) : String :=
  String.mk (s.data.map Char.toLower)

/-- Whether `pre` is a prefix of `s`. -/
def startsWithStr (s pre : String) : Bool :=
  pre.data.isPrefixOf s.data

/-- Whether `suf` is a suffix of `s`. -/
def endsWithStr (s suf : String) : Bool :=
  suf.data.reverse.isPrefixOf s.data.reverse

/-- Replace every NUL character by a space (Python
`s.replace("\0", " ")` for the single-character pattern the source uses). -/
def replaceNulls (s : String) : String :=
  String.mk (s.data.map fun c => if c = Char.ofNat 0 then ' ' else c)

/-- Accumulate decimal digits. -/
def digitsToNat? : List Char → Nat → Option Nat
  | [], acc => some acc
  | c :: t, acc =>
    if c.isDigit then digitsToNat? t (acc * 10 + (c.toNat - '0'.toNat))
    else none

/-- Models Python `int(s)` on an unsigned decimal token. -/
def strToNat? (s : String) : Option Nat :=
  match s.data with
  | [] => none
  | l => digitsToNat? l 0

/-- Helper for substring search over character lists. -/
def containsSub (needle : List Char) : List Char → Bool
  | [] => needle.isEmpty
  | c :: t => needle.isPrefixOf (c :: t) || containsSub needle t

/-- Models Python `needle in hay` on strings (substring containment). -/
def pyIn (needle hay : String) : Bool :=
  containsSub needle.toList hay.toList

/-- Models Python `str.isdigit()` for the ASCII digits that appear in /proc
entries: non-empty and all characters are digits. -/
def pyisdigit (s : String) : Bool :=
  s ≠ "" && s.data.all Char.isDigit

/-- Models Python `int(s)` on the decimal tokens the source feeds it: optional
leading minus sign followed by digits; `none` models the `ValueError`. -/
def pyParseInt? (s : String) : Option Int :=
  if startsWithStr s "-" then
    (strToNat? (dropLeftStr s 1)).map fun n => -(n : Int)
  else (strToNat? s).map Int.ofNat

/-- Value of one hexadecimal digit. -/
def hexDigit? (c : Char) : Option Nat :=
  if c.isDigit then some (c.toNat - '0'.toNat)
  else if 'a' ≤ c ∧ c ≤ 'f' then some (c.toNat - 'a'.toNat + 10)
  else if 'A' ≤ c ∧ c ≤ 'F' then some (c.toNat - 'A'.toNat + 10)
  else none

/-- Helper: left fold of hex digits. -/
def hexFold : List Char → Nat → Option Nat
  | [], acc => some acc
  | c :: t, acc =>
    match hexDigit? c with
    | some d => hexFold t (acc * 16 + d)
    | none => none

/-- Models Python `int(s, 16)` on the address tokens of smaps header lines:
plain hexadecimal digits, with an optional `0x` marker. -/
def pyParseHex? (s : String) : Option Nat :=
  let body :=
    if startsWithStr s "0x" ∨ startsWithStr s "0X" then dropLeftStr s 2 else s
  if body = "" then none else hexFold body.data 0

/-- Models Python `os.path.basename`: the part after the last slash. -/
def pybasename (s : String) : String :=
  ((pySplitChar s '/').getLast?).getD s

/-- The NUL character, rendered as a space by `pidcmd`. -/
def nullStr : String := String.singleton (Char.ofNat 0)

/-- Python truthiness of an optional string (None and "" are falsy). -/
def truthyStr : Option String → Bool
  | none => false
  | some s => s ≠ ""

/-- Python truthiness of the optional pid restriction (None and 0 are falsy). -/
def truthyPid : Option Nat → Bool
  | none => false
  | some n => n ≠ 0

/-- Python truthiness of an optional line list (None and [] are falsy), used
for `if status:` checks. -/
def truthyLines : Option (List String) → Bool
  | none => false
  | some l => l ≠ []

/-- Python truthiness of the `start` variable of `pidmaps` (None and address
0 are falsy). -/
def truthyStart : Option Nat → Bool
  | none => false
  | some n => n ≠ 0

/-! Association lists with Python-dict semantics (insertion-ordered,
assignment replaces the existing binding else appends). -/

/-- Dict lookup. -/
def alookup {α β : Type} [DecidableEq α] : List (α × β) → α → Option β
  | [], _ => none
  | (k0, v0) :: t, k => if k0 = k then some v0 else alookup t k

/-- Dict assignment: replace the first binding of the key, else append. -/
def aset {α β : Type} [DecidableEq α] : List (α × β) → α → β → List (α × β)
  | [], k, v => [(k, v)]
  | (k0, v0) :: t, k, v => if k0 = k then (k0, v) :: t else (k0, v0) :: aset t k v

/-- The numeric part of a mapping record: Python's string-keyed dict. -/
abbrev Fields := List (String × ℚ)

/-- Models `d.get(k, dflt)` / `d[k]` on the numeric dict. -/
def getk (d : Fields) (k : String) (dflt : ℚ) : ℚ :=
  (alookup d k).getD dflt

/-- Models `k in d` on the numeric dict. -/
def hask (d : Fields) (k : String) : Bool :=
  (alookup d k).isSome

/-! Configuration (the fields of `SmemConfig` the engine consults). -/

/-- The engine-relevant slice of the Python `SmemConfig` dataclass. -/
structure SmemConfig where
  columns : String := ""
  realmem : Option String := none
  kernel : Option String := none
  basename : Bool := false
  quiet : Bool := false
  processfilter : Option String := none
  mapfilter : Option String := none
  userfilter : Option String := none
  pid : Option Nat := none
  ignorecase : Bool := false
  mappings : Bool := false
  system : Bool := false
  sysdetail : Bool := false
  groupcmd : Bool := false
  rssdetail : Bool := false
  pssdetail : Bool := true
  rollup : Bool := true
  swappss : Bool := false
  ownpid : Nat := 0
deriving Repr, DecidableEq

/-! The outside world: /proc reads, external tools and the regex engine.
A `none` result models the read or tool raising an exception. -/

/-- Environment of external queries. Process ids are keyed by their numeric
value (the /proc paths are built from the same digits). `research` models
`re.search(pattern, s, re.I if ignorecase else 0)` returning whether a match
was found. `meminfo` models the dict `MemData` builds from /proc/meminfo
(keys lower-cased, values in kB); a missing key models the `KeyError`.
`dmidecodeRam` is the stripped stdout of the dmidecode pipeline, `duF` the
parsed `du -sk` total for a path, `sizeToolLine` the whitespace-split second
output line of `size <kernel>`. -/
structure Env where
  listdir : List String
  ownpid : Nat
  cmdlineF : Nat → Option String
  commF : Nat → Option String
  statusF : Nat → Option (List String)
  rollupF : Nat → Option (List String)
  smapsF : Nat → Option (List String)
  statUid : Nat → Option Int
  pwName : Int → Option String
  meminfo : String → Option Int
  mounts : Option (List String)
  duF : String → Option Int
  dmidecodeRam : Option String
  sizeToolLine : String → Option (List String)
  modulesF : Option (List String)
  research : String → String → Bool → Bool

/-! ProcessData methods. -/

/-- Models `ProcessData.pidcmd`: the command line with NULs as spaces and the
trailing character dropped, `?` when the read (or the basename step) fails. -/
def pidcmd (env : Env) (config : SmemConfig) (pid : Nat) : String :=
  match env.cmdlineF pid with
  | none => "?"
  | some raw =>
    let c := replaceNulls (dropRightStr raw 1)
    if config.basename ∧ c ≠ "" then
      match (pysplit c).head? with
      | some h => pybasename h
      | none => "?"
    else c

/-- Models `ProcessData.pidname` (/proc/pid/comm with trailing newline
dropped, `?` on error). -/
def pidname (env : Env) (pid : Nat) : String :=
  match env.commF pid with
  | none => "?"
  | some raw => dropRightStr raw 1

/-- Models `ProcessData.pidtostr`. -/
def pidtostr (pid : Nat) : String := toString pid

/-- Models `ProcessData.piduser`: the owner uid from stat, -1 on error. -/
def piduser (env : Env) (pid : Nat) : Int :=
  (env.statUid pid).getD (-1)

/-- Models `ProcessData.username` (including the `UIDCache` fallback of the
stringified uid when the passwd lookup fails). -/
def username (env : Env) (uid : Int) : String :=
  if uid = -1 then "?" else (env.pwName uid).getD (toString uid)

/-- Models `ProcessData.pidusername`. -/
def pidusername (env : Env) (pid : Nat) : String :=
  username env (piduser env pid)

/-- Models `ProcessData._iskernel`: kernel threads have an empty command
line. -/
def iskernel (env : Env) (config : SmemConfig) (pid : Nat) : Bool :=
  pidcmd env config pid = ""

/-- Models `ProcessData.pids`: numeric /proc entries that are not kernel
threads, restricted to the single requested pid when one is given, with the
tool's own pid dropped whenever a process filter is active. -/
def pids (env : Env) (config : SmemConfig) : List Nat :=
  env.listdir.filterMap fun e =>
    if pyisdigit e then
      let n := (strToNat? e).getD 0
      if ¬iskernel env config n ∧
          ((truthyPid config.pid ∧ config.pid = some n) ∨ ¬truthyPid config.pid) ∧
          ¬(n = config.ownpid ∧ truthyStr config.processfilter) then
        some n
      else none
    else none

/-- Models `ProcessData.mapdata`: prefer smaps_rollup when the rollup fast
path is enabled, fall back to smaps, and return no lines when that read
fails too. -/
def mapdata (env : Env) (config : SmemConfig) (pid : Nat) : List String :=
  if config.rollup then
    match env.rollupF pid with
    | some ls => ls
    | none => (env.smapsF pid).getD []
  else (env.smapsF pid).getD []

/-! The generic regex filter. -/

/-- Loop of `filters`: probe the sources in order, a match means
not-excluded. -/
def filtersLoop (env : Env) {α : Type} (p : String) (ic : Bool) (arg : α) :
    List (α → String) → Bool
  | [] => true
  | f :: rest =>
    if env.research p (f arg) ic then false else filtersLoop env p ic arg rest

/-- Models `filters(opt, arg, config, *sources)`: False (not excluded) when no
pattern is given, else excluded iff no probe string matches the pattern; the
matcher receives the case-insensitivity flag from the configuration. -/
def filters (env : Env) (opt : Option String) {α : Type} (arg : α)
    (config : SmemConfig) (sources : List (α → String)) : Bool :=
  match opt with
  | none => false
  | some p =>
    if p = "" then false
    else filtersLoop env p config.ignorecase arg sources

/-! The mapping parser (`pidmaps`). -/

/-- One virtual-memory mapping record: the address-range metadata of the
header line plus the string-keyed numeric dict holding the initialised
counters and every parsed `Field: N kB` line. -/
structure MapRec where
  addrEnd : Nat
  perm : String
  offset : Nat
  major : Nat
  minor : Nat
  inode : Int
  name : String
  fields : Fields
deriving Repr, DecidableEq

/-- The `maps` dict of `pidmaps`, keyed by mapping start address. -/
abbrev Maps := List (Nat × MapRec)

/-- Set one numeric field of the record stored at key `k`; `none` models the
`KeyError` when the key is absent. -/
def updf? (maps : Maps) (k : Nat) (key : String) (v : ℚ) : Option Maps :=
  match alookup maps k with
  | none => none
  | some r => some (aset maps k { r with fields := aset r.fields key v })

/-- The counters every new mapping record starts with (`pss_anon` /
`pss_file` / `pss_shmem` are added only when pss detail is supported). -/
def initFields (config : SmemConfig) : Fields :=
  [("pss", 0), ("rss", 0), ("uss", 0), ("swap", 0), ("swappss", 0),
   ("pcent", 0), ("size", 0)] ++
    (if config.pssdetail then
      [("pss_anon", 0), ("pss_file", 0), ("pss_shmem", 0)] else [])

/-- Parse the body of a header line (everything after the range check) into a
fresh mapping record; `none` models the various `ValueError`/`IndexError`
exceptions of the Python tuple unpacking and int conversions. -/
def parseHeader (config : SmemConfig) (f : List String) :
    Option (Nat × MapRec) := do
  let f0 ← f.head?
  match pySplitChar f0 '-' with
  | [s0, s1] => do
    let start ← pyParseHex? s0
    let addrEnd ← pyParseHex? s1
    let perm ← f.get? 1
    let offTok ← f.get? 2
    let offset ← pyParseHex? offTok
    let devTok ← f.get? 3
    let devParts := pySplitChar devTok ':'
    let majTok ← devParts.head?
    let major ← pyParseHex? majTok
    let minTok ← devParts.get? 1
    let minor ← pyParseHex? minTok
    let inoTok ← f.get? 4
    let inode ← pyParseInt? inoTok
    let name :=
      match f.get? 5 with
      | some n5 => if config.basename then pybasename n5 else n5
      | none => "<anonymous>"
    pure (start, MapRec.mk addrEnd perm offset major minor inode name
      (initFields config))
  | _ => none

/-- The line loop of `pidmaps`: a trailing `kB` token marks a field line for
the current record, a `start-end` first token (with no colon) starts a new
record, anything else is ignored; in `nomaps` mode parsing stops at the first
header. `none` models an uncaught exception. -/
def parseMaps (config : SmemConfig) (nomaps : Bool) :
    List String → Maps → Option Nat → Option (Maps × Option Nat)
  | [], maps, start => some (maps, start)
  | l :: rest, maps, start =>
    let f := pysplit l
    match f.getLast? with
    | none => none
    | some lastTok =>
      if lastTok = "kB" then
        match start with
        | none => none
        | some s =>
          match f.head? with
          | none => none
          | some f0 =>
            match f.get? 1 with
            | none => none
            | some f1 =>
              match pyParseInt? f1 with
              | none => none
              | some v =>
                match updf? maps s (toLowerStr (dropRightStr f0 1)) (qOfInt v) with
                | none => none
                | some maps2 => parseMaps config nomaps rest maps2 start
      else
        match f.head? with
        | none => none
        | some f0 =>
          if pyIn "-" f0 ∧ ¬pyIn ":" f0 then
            match parseHeader config f with
            | none => none
            | some (s, r) =>
              let maps2 := aset maps s r
              if nomaps then some (maps2, some s)
              else parseMaps config nomaps rest maps2 (some s)
          else parseMaps config nomaps rest maps start

/-- The full-scan derivation applied to one record when neither the rollup
fast path nor kernel pss detail is available: USS from the private counters,
PSS as USS plus half the clean shared pages, RSS from the shared counters. -/
def deriveRec (r : MapRec) : MapRec :=
  let uss := qadd (getk r.fields "private_clean" 0) (getk r.fields "private_dirty" 0)
  let fs1 := aset r.fields "uss" uss
  let pss := qadd (getk fs1 "uss" 0) (qdivNat (getk fs1 "shared_clean" 0) 2)
  let fs2 := aset fs1 "pss" pss
  let rss := qadd (getk fs2 "shared_clean" 0) (getk fs2 "shared_dirty" 0)
  { r with fields := aset fs2 "rss" rss }

/-- Derivation step of `pidmaps` (lines guarded by `not config.rollup` and
`not config.pssdetail`). -/
def deriveStep (config : SmemConfig) (maps : Maps) : Maps :=
  if config.rollup = false ∧ config.pssdetail = false then
    maps.map fun kr => (kr.1, deriveRec kr.2)
  else maps

/-- One status line of the RssAnon/RssFile/RssShmem copy loop; the values land
on the record of the last parsed mapping (`start`). -/
def rssLine (maps : Maps) (start : Option Nat) (s : String) : Option Maps :=
  if pyIn "RssAnon" s then do
    let tok ← (pysplit s).get? 1
    let v ← pyParseInt? tok
    let st ← start
    updf? maps st "rss_anon" (qOfInt v)
  else if pyIn "RssFile" s then do
    let tok ← (pysplit s).get? 1
    let v ← pyParseInt? tok
    let st ← start
    updf? maps st "rss_file" (qOfInt v)
  else if pyIn "RssShmem" s then do
    let tok ← (pysplit s).get? 1
    let v ← pyParseInt? tok
    let st ← start
    updf? maps st "rss_shmem" (qOfInt v)
  else some maps

/-- Fold of `rssLine` over the status lines. -/
def rssLines (start : Option Nat) : List String → Maps → Option Maps
  | [], maps => some maps
  | s :: rest, maps =>
    match rssLine maps start s with
    | none => none
    | some maps2 => rssLines start rest maps2

/-- Resident-set detail step of `pidmaps` (guarded by `not config.rollup`,
`config.rssdetail` and a truthy status read). -/
def rssStep (config : SmemConfig) (status : Option (List String))
    (start : Option Nat) (maps : Maps) : Option Maps :=
  if config.rollup = false ∧ config.rssdetail = true ∧
      truthyLines status = true then
    rssLines start (status.getD []) maps
  else some maps

/-- Processing of the first `VmSize:` status line: the (dead, because this
code only runs when the rollup path is off) rollup branch assigns the whole
value to the last mapping; the full-scan branch floor-divides it evenly over
all mappings. Later status lines are not examined (`break`). -/
def vmsizeApply (config : SmemConfig) (start : Option Nat) :
    List String → Maps → Option Maps
  | [], maps => some maps
  | s :: rest, maps =>
    if pyIn "VmSize:" s then
      if config.rollup = true ∧ truthyStart start = true then do
        let tok ← (pysplit s).get? 1
        let v ← pyParseInt? tok
        let st ← start
        updf? maps st "size" (qOfInt v)
      else do
        let tok ← (pysplit s).get? 1
        let total ← pyParseInt? tok
        if maps ≠ [] then
          let spm : Int := Int.fdiv total (maps.length : Int)
          pure (maps.map fun kr =>
            (kr.1, { kr.2 with fields := aset kr.2.fields "size" (qOfInt spm) }))
        else pure maps
    else vmsizeApply config start rest maps

/-- Virtual-size step of `pidmaps` (guarded by `not config.rollup` and a
truthy status read). -/
def vmsizeStep (config : SmemConfig) (status : Option (List String))
    (start : Option Nat) (maps : Maps) : Option Maps :=
  if config.rollup = false ∧ truthyLines status = true then
    vmsizeApply config start (status.getD []) maps
  else some maps

/-- Mapping-name filter step of `pidmaps` (skipped in probe mode). -/
def mapfilterStep (env : Env) (config : SmemConfig) (nomaps : Bool)
    (maps : Maps) : Maps :=
  if truthyStr config.mapfilter = true ∧ nomaps = false then
    maps.filter fun kr =>
      ¬filters env config.mapfilter kr.1 config
        [fun x => ((alookup maps x).map MapRec.name).getD ""]
  else maps

/-- The conditional status read at the top of `pidmaps`. -/
def statusRead (env : Env) (config : SmemConfig) (pid : Nat) :
    Option (List String) :=
  if config.rollup ∨ config.pssdetail ∨ config.rssdetail then
    env.statusF pid
  else none

/-- Models `pidmaps`: parse the smaps/smaps_rollup lines of the process, apply
the full-scan derivations and status-based enrichments, then the mapping-name
filter. `none` models an uncaught exception escaping the function. -/
def pidmaps (env : Env) (config : SmemConfig) (pid : Nat)
    (nomaps : Bool := false) : Option Maps := do
  let status := statusRead env config pid
  let (maps0, start) ← parseMaps config nomaps (mapdata env config pid) [] none
  let m1 := deriveStep config maps0
  let m2 ← rssStep config status start m1
  let m3 ← vmsizeStep config status start m2
  pure (mapfilterStep env config nomaps m3)

/-! Per-process and grouped totals. -/

/-- Sum of one numeric field over the records of a map set (with the Python
`.get(k, 0)` default). -/
def sumField (maps : Maps) (k : String) : ℚ :=
  qsum (maps.map fun kr => getk kr.2.fields k 0)

/-- Models `pidtotals`: the per-process totals dict, empty when the process
yielded no mapping records. -/
def pidtotals (env : Env) (config : SmemConfig) (pid : Nat) : Option Fields := do
  let maps ← pidmaps env config pid
  if maps = [] then pure []
  else
    let base : Fields :=
      [("pss", sumField maps "pss"),
       ("rss", sumField maps "rss"),
       ("uss", qadd (sumField maps "private_clean") (sumField maps "private_dirty")),
       ("swap", sumField maps "swap"),
       ("size", sumField maps "size"),
       ("maps", qOfNat maps.length)]
    let t1 := base ++ (if config.swappss then [("swappss", sumField maps "swappss")] else [])
    let t2 := t1 ++
      (if config.pssdetail then
        [("pss_anon", sumField maps "pss_anon"),
         ("pss_file", sumField maps "pss_file"),
         ("pss_shmem", sumField maps "pss_shmem")] else [])
    let t3 := t2 ++
      (if config.rssdetail then
        [("rss_anon", sumField maps "rss_anon"),
         ("rss_file", sumField maps "rss_file"),
         ("rss_shmem", sumField maps "rss_shmem")] else [])
    pure t3

/-- The accumulator `processtotals` starts from. -/
def ptInit (config : SmemConfig) : Fields :=
  [("uss", 0), ("pss", 0), ("rss", 0), ("swap", 0), ("size", 0)] ++
    (if config.swappss then [("swappss", 0)] else [])

/-- The inner loop of `processtotals`: add the present keys of one process's
totals into the accumulator (iterating the accumulator's keys). -/
def addInto (t pt : Fields) : Fields :=
  t.map fun kv =>
    match alookup pt kv.1 with
    | some w => (kv.1, qadd kv.2 w)
    | none => kv

/-- The pid loop of `processtotals`. -/
def ptGo (env : Env) (config : SmemConfig) : List Nat → Fields → Option Fields
  | [], t => some t
  | p :: rest, t => do
    let pt ← pidtotals env config p
    if pt ≠ [] then ptGo env config rest (addInto t pt)
    else ptGo env config rest t

/-- Models `processtotals`: fold the per-process totals of a pid list into one
totals dict (a process with an empty totals dict contributes nothing). -/
def processtotals (env : Env) (config : SmemConfig) (ps : List Nat) :
    Option Fields :=
  ptGo env config ps (ptInit config)

/-- The probe-string sources the process filter uses (command line,
stringified pid, short name, in that order). -/
def procSources (env : Env) (config : SmemConfig) : List (Nat → String) :=
  [pidcmd env config, pidtostr, pidname env]

/-- Whether `maptotals` / `usertotals` / `cmdtotals` / `mapnametotals` skip a
pid: excluded by the process filter or by the user filter. -/
def skipPid (env : Env) (config : SmemConfig) (p : Nat) : Bool :=
  filters env config.processfilter p config (procSources env config) ||
    filters env config.userfilter p config [pidusername env]

/-- The pid loop of `maptotals`. -/
def mtGo (env : Env) (config : SmemConfig) :
    List Nat → List (Nat × (Maps × Fields)) →
      Option (List (Nat × (Maps × Fields)))
  | [], pt => some pt
  | p :: rest, pt =>
    if skipPid env config p then mtGo env config rest pt
    else do
      let maps ← pidmaps env config p
      if maps ≠ [] then do
        let tot ← pidtotals env config p
        mtGo env config rest (aset pt p (maps, tot))
      else mtGo env config rest pt

/-- Models `maptotals`: per-process map sets plus flattened totals, for the
pids passing the filters and having readable non-empty map data. -/
def maptotals (env : Env) (config : SmemConfig) (ps : List Nat) :
    Option (List (Nat × (Maps × Fields))) :=
  mtGo env config ps []

/-- One per-user group: resolved user name, member pids, totals. -/
structure UserGroup where
  name : String
  upids : List Nat
  totals : Fields
deriving Repr, DecidableEq

/-- A user bucket list: uid mapped to resolved name and member pids. -/
abbrev UserBuckets := List (Int × (String × List Nat))

/-- Create the bucket of uid `u` if it does not exist yet (`ut[u] = {...}`
guarded by `u not in ut`). -/
def ensureUser (env : Env) (ut : UserBuckets) (u : Int) : UserBuckets :=
  match alookup ut u with
  | some _ => ut
  | none => ut ++ [(u, (username env u, []))]

/-- Append a pid to the bucket of uid `u` (`ut[u]["pids"].append(p)`). -/
def bumpUser (ut : UserBuckets) (u : Int) (p : Nat) : UserBuckets :=
  ut.map fun ke => if ke.1 = u then (ke.1, (ke.2.1, ke.2.2 ++ [p])) else ke

/-- Grouping loop of `usertotals`: bucket the surviving pids by owner uid,
resolving the user name when a bucket is created. -/
def userBuckets (env : Env) (config : SmemConfig) (ps : List Nat) :
    UserBuckets :=
  ps.foldl (fun ut p =>
    if skipPid env config p then ut
    else bumpUser (ensureUser env ut (piduser env p)) (piduser env p) p) []

/-- The totals loop of `usertotals`. -/
def userTotalsGo (env : Env) (config : SmemConfig) :
    UserBuckets → Option (List (Int × UserGroup))
  | [] => some []
  | ke :: rest => do
    let t ← processtotals env config ke.2.2
    let r ← userTotalsGo env config rest
    pure ((ke.1, UserGroup.mk ke.2.1 ke.2.2 t) :: r)

/-- Models `usertotals`: per-user buckets with `processtotals` of each
bucket's pids. -/
def usertotals (env : Env) (config : SmemConfig) (ps : List Nat) :
    Option (List (Int × UserGroup)) :=
  userTotalsGo env config (userBuckets env config ps)

/-- One per-command group: member pids, totals, and the name/user keys that
are set only when the totals dict is truthy. -/
structure CmdGroup where
  cpids : List Nat
  totals : Fields
  name : Option String
  user : Option String
deriving Repr, DecidableEq

/-- Grouping loop of `cmdtotals`: bucket the surviving pids by the first
whitespace-delimited token of their command line (pids with an empty command
line or an all-whitespace one are skipped). -/
def cmdBuckets (env : Env) (config : SmemConfig) (ps : List Nat) :
    List (String × List Nat) :=
  ps.foldl (fun ct p =>
    if skipPid env config p then ct
    else
      let cmdline := pidcmd env config p
      if cmdline = "" then ct
      else
        match (pysplit cmdline).head? with
        | none => ct
        | some c =>
          match alookup ct c with
          | some ms => aset ct c (ms ++ [p])
          | none => ct ++ [(c, [p])]) []

/-- Totals phase of `cmdtotals`: attach `processtotals` to every bucket,
setting the name and representative user only for truthy totals. -/
def cmdTotalsPhase (env : Env) (config : SmemConfig) :
    List (String × List Nat) → Option (List (String × CmdGroup))
  | [] => some []
  | ke :: rest => do
    let t ← processtotals env config ke.2
    let g :=
      if t ≠ [] then
        CmdGroup.mk ke.2 t (some ke.1)
          (some (pidusername env ((ke.2.head?).getD 0)))
      else CmdGroup.mk ke.2 t none none
    let r ← cmdTotalsPhase env config rest
    pure ((ke.1, g) :: r)

/-- Removal phase of `cmdtotals`: drop the commands whose totals dict is
falsy (absent or empty). -/
def cmdRemoveEmpty (ct : List (String × CmdGroup)) : List (String × CmdGroup) :=
  ct.filter fun ke => ke.2.totals ≠ []

/-- Models `cmdtotals`: group by command token, attach totals, then remove
commands with empty totals. -/
def cmdtotals (env : Env) (config : SmemConfig) (ps : List Nat) :
    Option (List (String × CmdGroup)) := do
  let ct ← cmdTotalsPhase env config (cmdBuckets env config ps)
  pure (cmdRemoveEmpty ct)

/-! Total-memory detection and the system breakdown. -/

/-- Models Python `float(s)` on the plain decimal literals `fromunits` feeds
it (optional sign, digits, optional fractional part). -/
def pyParseFloat? (x : String) : Option ℚ :=
  let sgn : Int := if startsWithStr x "-" then -1 else 1
  let body :=
    if startsWithStr x "-" ∨ startsWithStr x "+" then dropLeftStr x 1 else x
  match pySplitChar body '.' with
  | [a] => (strToNat? a).map fun n => mkRat (sgn * n) 1
  | [a, b] =>
    if a = "" ∧ b = "" then none
    else do
      let ia ← if a = "" then some 0 else strToNat? a
      let fb ← if b = "" then some 0 else strToNat? b
      pure (mkRat (sgn * (ia * 10 ^ b.data.length + fb)) (10 ^ b.data.length))
  | _ => none

/-- The suffix table of `fromunits`, in Python dict insertion order. -/
def unitPairs : List (String × Int) :=
  [("k", 2 ^ 10), ("K", 2 ^ 10), ("kB", 2 ^ 10), ("KB", 2 ^ 10),
   ("M", 2 ^ 20), ("MB", 2 ^ 20), ("G", 2 ^ 30), ("GB", 2 ^ 30),
   ("T", 2 ^ 40), ("TB", 2 ^ 40)]

/-- Suffix scan of `fromunits`. -/
def fromunitsGo (x : String) : List (String × Int) → Option Int
  | [] => none
  | (k, v) :: rest =>
    if endsWithStr x k then
      (pyParseFloat? (dropRightStr x k.data.length)).map fun q =>
        pyTrunc (qmul q (qOfInt v))
    else fromunitsGo x rest

/-- Models `fromunits`: a value with a binary unit suffix, in bytes; `none`
models the `sys.exit` on an unrecognised unit. -/
def fromunits (x : String) : Option Int :=
  fromunitsGo x unitPairs

/-- Models `totalmem`: the explicit override amount, else (for system views)
the dmidecode hardware probe when its output is all digits, else the meminfo
total. The result is in kB and may be fractional (Python float division). -/
def totalmem (env : Env) (config : SmemConfig) : Option ℚ :=
  if truthyStr config.realmem then do
    let b ← fromunits (config.realmem.getD "")
    pure (qdivNat (qOfInt b) 1024)
  else
    let fallback : Option ℚ := (env.meminfo "memtotal").map fun v => qOfInt v
    if config.system ∨ config.sysdetail then
      match env.dmidecodeRam with
      | some ram =>
        if pyisdigit ram then do
          let b ← fromunits (toString ((strToNat? ram).getD 0) ++ "M")
          pure (qdivNat (qOfInt b) 1024)
        else fallback
      | none => fallback
    else fallback

/-- Models `kernelsize`: the rounded data+text size reported by the external
`size` tool for the configured kernel image; every failure (and the packed
image advisory path) degrades to 0. -/
def kernelsize (env : Env) (config : SmemConfig) : Int :=
  if truthyStr config.kernel then
    match env.sizeToolLine (config.kernel.getD "") with
    | none => 0
    | some d =>
      match (d.get? 1).bind pyParseInt? with
      | none => 0
      | some d1 =>
        if d1 = 0 then 0
        else
          match (d.get? 3).bind pyParseInt? with
          | none => 0
          | some d3 => pyTrunc (qadd (qdivNat (qOfInt d3) 1024) (mkRat 1 2))
  else 0

/-- Summation loop of `kernelmodsize`; a parse failure aborts the loop with
the partial sum, which then skips the division by 1024 (the Python try block
wraps both). -/
def modSizeGo : List String → ℚ → Int
  | [], acc => pyTrunc (qdivNat acc 1024)
  | l :: rest, acc =>
    match ((pysplit l).get? 1).bind pyParseInt? with
    | none => pyTrunc acc
    | some v => modSizeGo rest (qadd acc (qOfInt v))

/-- Models `kernelmodsize`: total size of loaded kernel modules in kB, 0 when
the module table cannot be read. -/
def kernelmodsize (env : Env) : Int :=
  match env.modulesF with
  | none => 0
  | some md => modSizeGo md 0

/-- Models `mapdevzero`: overwrite the shared configuration's mapping-name
filter with the /dev/zero pattern and total the pss of the matching mappings
over all pids. The updated configuration is returned to model the mutation. -/
def mapdevzero (env : Env) (config : SmemConfig) : Option (Int × SmemConfig) := do
  let ps := pids env config
  let config2 := { config with mapfilter := some "^/dev/zero$" }
  let pt ← maptotals env config2 ps
  let t : ℚ := qsum (pt.map fun e => getk e.2.2 "pss" 0)
  pure (pyTrunc t, config2)

/-- Models `mapshared`: same as `mapdevzero` with the SysV shared-memory
pattern. -/
def mapshared (env : Env) (config : SmemConfig) : Option (Int × SmemConfig) := do
  let ps := pids env config
  let config2 := { config with mapfilter := some "^/SYSV*" }
  let pt ← maptotals env config2 ps
  let t : ℚ := qsum (pt.map fun e => getk e.2.2 "pss" 0)
  pure (pyTrunc t, config2)

/-- One ramfs mount line's contribution to the ramfs total: the external
`du -sk` usage of the mount point, 0 on any failure. -/
def ramfsContribution (env : Env) (r : String) : Int :=
  if pyIn "ramfs" r then
    match (pysplit r).get? 1 with
    | some path => (env.duF path).getD 0
    | none => 0
  else 0

/-- One row of the system breakdown: label, used and cache in kB, plus the
detail column in detailed mode (the Python tuples have 3 or 4 entries). -/
inductive SysRow
  | r3 (label : String) (used cache : Int)
  | r4 (label : String) (used cache detail : Int)
deriving Repr, DecidableEq

/-- Label of a breakdown row. -/
def SysRow.label : SysRow → String
  | .r3 l _ _ => l
  | .r4 l _ _ _ => l

/-- Used column of a breakdown row. -/
def SysRow.used : SysRow → Int
  | .r3 _ u _ => u
  | .r4 _ u _ _ => u

/-- The thirteen base rows of the detailed system breakdown. -/
def detailRows (fh kernel modules pagetables kernelstack slab sreclaimable
    buffers filecache shm ramfs unknown u mapped f : Int) : List SysRow :=
  [.r4 "firmware/hardware" fh 0 0,
   .r4 "kernel image" kernel 0 0,
   .r4 "kernel modules" modules 0 0,
   .r4 "page tables" pagetables 0 0,
   .r4 "kernel stack" kernelstack 0 0,
   .r4 "slab (all/SReclaimable)" slab sreclaimable 0,
   .r4 "buffers" buffers buffers 0,
   .r4 "cached (w/o mapped,tmpfs,ramfs)" filecache filecache 0,
   .r4 "shared (non process tmpfs)" shm 0 0,
   .r4 "ramfs" ramfs 0 0,
   .r4 "unknown" unknown 0 0,
   .r4 "processes (all/mapped files)" u mapped 0,
   .r4 "free memory" f f 0]

/-- The extended sub-list appended when full detail columns are requested. -/
def extendedRows (mapzero shmp unevictable dirty swapped memavailable : Int) :
    List SysRow :=
  [.r4 "-------------------------------" 0 0 0,
   .r4 "/dev/zero mapped" 0 0 mapzero,
   .r4 "shared by processes" 0 0 shmp,
   .r4 "unevictable" 0 0 unevictable,
   .r4 "dirty (unwritten to file)" 0 0 dirty,
   .r4 "swapped" 0 0 swapped,
   .r4 "available (estimated)" 0 0 memavailable]

/-- The five rows of the basic system breakdown. -/
def basicRows (fh kernel kd kdc u mapped f : Int) : List SysRow :=
  [.r3 "firmware/hardware" fh 0,
   .r3 "kernel image" kernel 0,
   .r3 "kernel dynamic memory" kd kdc,
   .r3 "userspace memory" u mapped,
   .r3 "free memory" f f]

/-- Detailed branch of `get_system_data`: the helper totals (which mutate the
mapping-name filter), the kernel sub-accounts, the clamped unknown remainder,
and the optional extended sub-list. -/
def sysDetailBranch (env : Env) (config : SmemConfig)
    (mt f u mappedRaw buffers sreclaimable cached fh kernel : Int) :
    Option (List SysRow × SmemConfig) := do
  let (shmp, configA) ← mapshared env config
  let (mapzero, configB) ← mapdevzero env configA
  let mapped := mappedRaw - mapzero
  let modules := kernelmodsize env
  let shmem ← env.meminfo "shmem"
  let shm := shmem - shmp
  let mounts ← env.mounts
  let ramfs := (mounts.map (ramfsContribution env)).sum
  let filecache := cached - mapped - shm - ramfs
  let pagetables ← env.meminfo "pagetables"
  let kernelstack ← env.meminfo "kernelstack"
  let slab ← env.meminfo "slab"
  let unknown0 := mt - f - u -
    (modules + pagetables + kernelstack + slab + buffers + filecache +
      shm + ramfs)
  let unknown := if unknown0 < 0 then 0 else unknown0
  let base := detailRows fh kernel modules pagetables kernelstack slab
    sreclaimable buffers filecache shm ramfs unknown u mapped f
  if pyIn "all" config.columns ∨ pyIn "details" config.columns then do
    let unevictable ← env.meminfo "unevictable"
    let dirty ← env.meminfo "dirty"
    let swaptotal ← env.meminfo "swaptotal"
    let swapfree ← env.meminfo "swapfree"
    let memavailable ← env.meminfo "memavailable"
    pure (base ++ extendedRows mapzero shmp unevictable dirty
      (swaptotal - swapfree) memavailable, configB)
  else
    pure (base, configB)

/-- Models `get_system_data`: the labeled partition of physical memory, basic
or detailed. The configuration that results from the helper computations'
mutation of the mapping-name filter is returned alongside the rows. -/
def get_system_data (env : Env) (config : SmemConfig) :
    Option (List SysRow × SmemConfig) := do
  let t ← totalmem env config
  let mt ← env.meminfo "memtotal"
  let f ← env.meminfo "memfree"
  let kernel := kernelsize env config
  let anonpages ← env.meminfo "anonpages"
  let mappedRaw ← env.meminfo "mapped"
  let u := anonpages + mappedRaw
  let fh := pyTrunc (qmax (qsub (qsub t (qOfInt mt)) (qOfInt kernel)) (qOfInt 0))
  let kd := mt - f - u
  let buffers ← env.meminfo "buffers"
  let sreclaimable ← env.meminfo "sreclaimable"
  let cached ← env.meminfo "cached"
  let kdc := buffers + sreclaimable + cached - mappedRaw
  if config.sysdetail then
    sysDetailBranch env config mt f u mappedRaw buffers sreclaimable cached
      fh kernel
  else
    pure (basicRows fh kernel kd kdc u mappedRaw f, config)

/-! Feature detection (`setdatasources`). -/

/-- The RssAnon probe loop over the own status lines. -/
def rssDetailProbe : List String → Bool
  | [] => false
  | r :: rest => if pyIn "RssAnon:" r then true else rssDetailProbe rest

/-- Models `setdatasources`: reset the capability fields, probe the invoking
process's status and first mapping record, then disable the rollup fast path
for the features that need full smaps. `none` models the probe reads
failing (which aborts the run). -/
def setdatasources (env : Env) (config : SmemConfig) : Option SmemConfig := do
  let c1 := { config with ownpid := env.ownpid, rssdetail := false,
                          pssdetail := true, rollup := true }
  let rd ← env.statusF c1.ownpid
  let c2 := { c1 with rssdetail := rssDetailProbe rd }
  let md ← pidmaps env c2 c2.ownpid true
  let r0 ← (md.head?).map Prod.snd
  let c3 := { c2 with swappss := hask r0.fields "swappss",
                      pssdetail := hask r0.fields "pss_anon" }
  let disable :=
    truthyStr c3.mapfilter ∨ c3.mappings = true ∨
      pyIn "maps" c3.columns = true ∨
      (pyIn "all" c3.columns = true ∧ c3.groupcmd = false)
  if disable then pure { c3 with rollup := false } else pure c3

/-! Derived observation helpers used by the theorems below. -/

/-- One numeric field of a process's totals, 0 when the totals dict is empty
or the process's data could not be read. -/
def fieldOf (env : Env) (config : SmemConfig) (k : String) (p : Nat) : ℚ :=
  match pidtotals env config p with
  | some t => getk t k 0
  | none => 0

/-- Per-process pss total. -/
def pssOf (env : Env) (config : SmemConfig) (p : Nat) : ℚ :=
  fieldOf env config "pss" p

/-- The full-scan derivation equations on one record: USS from the private
counters, PSS as USS plus half the clean shared pages, RSS from the shared
counters (each absent field counting as 0). -/
def fullScanEqs (r : MapRec) : Prop :=
  getk r.fields "uss" 0 =
      qadd (getk r.fields "private_clean" 0) (getk r.fields "private_dirty" 0) ∧
    getk r.fields "pss" 0 =
      qadd (getk r.fields "uss" 0) (qdivNat (getk r.fields "shared_clean" 0) 2) ∧
    getk r.fields "rss" 0 =
      qadd (getk r.fields "shared_clean" 0) (getk r.fields "shared_dirty" 0)

instance (r : MapRec) : Decidable (fullScanEqs r) := by
  unfold fullScanEqs; infer_instance

/-- The dict keys the post-parse enrichment steps of `pidmaps` may write
(outside the derivation): resident-set detail and the distributed size. -/
def touchedKeys : List String := ["rss_anon", "rss_file", "rss_shmem", "size"]

/-- Two field dicts agree on every key outside `ks`. -/
def agreeOutside (ks : List String) (d d2 : Fields) : Prop :=
  ∀ key, key ∉ ks → alookup d2 key = alookup d key

/-- Every record of `maps2` comes from a record of `maps` with the same start
key whose fields agree outside `ks`. -/
def stepRel (ks : List String) (maps maps2 : Maps) : Prop :=
  ∀ x ∈ maps2, ∃ r, (x.1, r) ∈ maps ∧ agreeOutside ks r.fields x.2.fields

/-- The pss, rss and uss counters of every record of a map set, in order. -/
def coreTriples (maps : Maps) : List (ℚ × ℚ × ℚ) :=
  maps.map fun kr =>
    (getk kr.2.fields "pss" 0, getk kr.2.fields "rss" 0,
      getk kr.2.fields "uss" 0)

/-- The pss, rss and uss entries of a totals dict. -/
def coreOfTotals (t : Fields) : ℚ × ℚ × ℚ :=
  (getk t "pss" 0, getk t "rss" 0, getk t "uss" 0)

/-! Concrete fixtures. -/

/-- An environment in which every external query fails. -/
def baseEnv : Env where
  listdir := []
  ownpid := 99
  cmdlineF := fun _ => none
  commF := fun _ => none
  statusF := fun _ => none
  rollupF := fun _ => none
  smapsF := fun _ => none
  statUid := fun _ => none
  pwName := fun _ => none
  meminfo := fun _ => none
  mounts := none
  duF := fun _ => none
  dmidecodeRam := none
  sizeToolLine := fun _ => none
  modulesF := none
  research := fun p s _ => pyIn p s

/-- Full-scan configuration on a kernel without pss detail. -/
def cfgFull : SmemConfig := { rollup := false, pssdetail := false }

/-- Full-scan configuration on a kernel with pss detail. -/
def cfgDetail : SmemConfig := { rollup := false, pssdetail := true }

/-- A process whose smaps has one mapping with only a private-clean counter. -/
def envC1 : Env :=
  { baseEnv with
    smapsF := fun p =>
      if p = 1 then
        some ["00400000-00401000 r-xp 00000000 08:01 123 /bin/x",
              "Private_Clean: 4 kB"]
      else none }

/-- A process whose smaps has one mapping carrying only a native Pss value. -/
def envC2 : Env :=
  { baseEnv with
    smapsF := fun p =>
      if p = 1 then
        some ["00400000-00401000 r-xp 00000000 08:01 123 /bin/x",
              "Pss: 10 kB"]
      else none }

/-- A process with a full set of consistent counters in one mapping. -/
def envA : Env :=
  { baseEnv with
    smapsF := fun p =>
      if p = 1 then
        some ["00400000-00401000 r-xp 00000000 08:01 123 /bin/x",
              "Pss: 10 kB",
              "Private_Clean: 4 kB",
              "Private_Dirty: 3 kB",
              "Shared_Clean: 6 kB",
              "Shared_Dirty: 1 kB"]
      else none }

/-- Two mapping blocks whose native pss/rss/uss values agree with the
full-scan derivation formulas on their private/shared counters. -/
def envFix : Env :=
  { baseEnv with
    smapsF := fun p =>
      if p = 1 then
        some ["00400000-00401000 r-xp 00000000 08:01 123 /bin/x",
              "Private_Clean: 2 kB",
              "Private_Dirty: 3 kB",
              "Shared_Clean: 4 kB",
              "Shared_Dirty: 1 kB",
              "Pss: 7 kB",
              "Rss: 5 kB",
              "Uss: 5 kB",
              "00500000-00502000 rw-p 00000000 00:00 0",
              "Private_Clean: 1 kB",
              "Private_Dirty: 0 kB",
              "Shared_Clean: 0 kB",
              "Shared_Dirty: 2 kB",
              "Pss: 1 kB",
              "Rss: 2 kB",
              "Uss: 1 kB"]
      else none }

/-- An environment where the probe of the tool's own process (pid 99)
succeeds: its status shows RssAnon and its rollup summary has one block. -/
def envProbe : Env :=
  { baseEnv with
    statusF := fun p => if p = 99 then some ["RssAnon: 1 kB"] else none,
    rollupF := fun p =>
      if p = 99 then
        some ["00400000-00401000 r-xp 00000000 08:01 0", "Pss: 1 kB"]
      else none }

/-- Two readable processes owned by different users, reporting pss 10 and
pss 20 through their rollup summaries. -/
def envUsers : Env :=
  { baseEnv with
    rollupF := fun p =>
      if p = 4 then
        some ["00400000-00401000 r-xp 00000000 08:01 0", "Pss: 10 kB"]
      else if p = 5 then
        some ["00400000-00401000 r-xp 00000000 08:01 0", "Pss: 20 kB"]
      else none,
    statUid := fun p =>
      if p = 4 then some 100 else if p = 5 then some 200 else none }

/-- A process with command line `foo` whose mapping data is unreadable. -/
def envCmd : Env :=
  { baseEnv with
    cmdlineF := fun p =>
      if p = 5 then some ("foo".push (Char.ofNat 0)) else none }

/-- A process whose status reports VmSize while its rollup summary has a
single block; used to evaluate the virtual-size assignment in rollup mode. -/
def envRoll : Env :=
  { baseEnv with
    statusF := fun p => if p = 1 then some ["VmSize: 1000 kB"] else none,
    rollupF := fun p =>
      if p = 1 then
        some ["00400000-00401000 r-xp 00000000 08:01 0", "Rss: 5 kB"]
      else none }

/-- A process with three mappings in full smaps and a VmSize status line;
used to evaluate the even distribution in full-scan mode. -/
def envFS3 : Env :=
  { baseEnv with
    statusF := fun p => if p = 1 then some ["VmSize: 1000 kB"] else none,
    smapsF := fun p =>
      if p = 1 then
        some ["00400000-00401000 r-xp 00000000 08:01 0",
              "00500000-00501000 rw-p 00000000 00:00 0",
              "00600000-00601000 rw-p 00000000 00:00 0"]
      else none }

/-- A complete system-memory environment with no readable processes, an
empty mount table and module table, and a failing hardware inventory. -/
def envSys : Env :=
  { baseEnv with
    meminfo := fun k => alookup
      [("memtotal", (1000 : Int)), ("memfree", 200), ("anonpages", 300),
       ("mapped", 100), ("buffers", 10), ("sreclaimable", 20),
       ("cached", 50), ("shmem", 5), ("pagetables", 7),
       ("kernelstack", 3), ("slab", 30)] k,
    mounts := some [],
    modulesF := some [],
    dmidecodeRam := some "" }

/-- Detailed system view configuration. -/
def cfgSys : SmemConfig := { sysdetail := true }

/-- The per-command groups of the `envCmd` fixture: the unreadable process
keeps its command entry with all-zero totals. -/
def ctCmd : List (String × CmdGroup) :=
  [("foo", CmdGroup.mk [5]
    [("uss", 0), ("pss", 0), ("rss", 0), ("swap", 0), ("size", 0)]
    (some "foo") (some "?"))]

/-- The configuration resulting from `get_system_data` on `cfgSys`: only the
mapping-name filter has been overwritten. -/
def cfgSysAfter : SmemConfig :=
  { sysdetail := true, mapfilter := some "^/dev/zero$" }

/-- The detailed breakdown rows of the `envSys` fixture. -/
def linesSys : List SysRow :=
  [.r4 "firmware/hardware" 0 0 0,
   .r4 "kernel image" 0 0 0,
   .r4 "kernel modules" 0 0 0,
   .r4 "page tables" 7 0 0,
   .r4 "kernel stack" 3 0 0,
   .r4 "slab (all/SReclaimable)" 30 20 0,
   .r4 "buffers" 10 10 0,
   .r4 "cached (w/o mapped,tmpfs,ramfs)" (-55) (-55) 0,
   .r4 "shared (non process tmpfs)" 5 0 0,
   .r4 "ramfs" 0 0 0,
   .r4 "unknown" 400 0 0,
   .r4 "processes (all/mapped files)" 400 100 0,
   .r4 "free memory" 200 200 0]

/-- The per-user groups of the `envUsers` fixture. -/
def utUsers : List (Int × UserGroup) :=
  [(100, UserGroup.mk "100" [4]
     [("uss", 0), ("pss", 10), ("rss", 0), ("swap", 0), ("size", 0)]),
   (200, UserGroup.mk "200" [5]
     [("uss", 0), ("pss", 20), ("rss", 0), ("swap", 0), ("size", 0)])]

/-- The `envA` fixture's record as parsed (before the derivation). -/
def mapsAparsed : Maps :=
  [(4194304, MapRec.mk 4198400 "r-xp" 0 8 1 123 "/bin/x"
    [("pss", 10), ("rss", 0), ("uss", 0), ("swap", 0), ("swappss", 0),
     ("pcent", 0), ("size", 0), ("private_clean", 4), ("private_dirty", 3),
     ("shared_clean", 6), ("shared_dirty", 1)])]

/-- The `envA` fixture's record as returned by `pidmaps` under `cfgFull`. -/
def mapsAfinal : Maps :=
  [(4194304, MapRec.mk 4198400 "r-xp" 0 8 1 123 "/bin/x"
    [("pss", 10), ("rss", 7), ("uss", 7), ("swap", 0), ("swappss", 0),
     ("pcent", 0), ("size", 0), ("private_clean", 4), ("private_dirty", 3),
     ("shared_clean", 6), ("shared_dirty", 1)])]

/-- The `envFix` fixture's records under `cfgDetail` (both as parsed and as
returned, since no derivation or enrichment touches them). -/
def mapsFix : Maps :=
  [(4194304, MapRec.mk 4198400 "r-xp" 0 8 1 123 "/bin/x"
    [("pss", 7), ("rss", 5), ("uss", 5), ("swap", 0), ("swappss", 0),
     ("pcent", 0), ("size", 0), ("pss_anon", 0), ("pss_file", 0),
     ("pss_shmem", 0), ("private_clean", 2), ("private_dirty", 3),
     ("shared_clean", 4), ("shared_dirty", 1)]),
   (5242880, MapRec.mk 5251072 "rw-p" 0 0 0 0 "<anonymous>"
    [("pss", 1), ("rss", 2), ("uss", 1), ("swap", 0), ("swappss", 0),
     ("pcent", 0), ("size", 0), ("pss_anon", 0), ("pss_file", 0),
     ("pss_shmem", 0), ("private_clean", 1), ("private_dirty", 0),
     ("shared_clean", 0), ("shared_dirty", 2)])]

/-! Association-list lemmas. -/

theorem alookup_aset_self {α β : Type} [DecidableEq α]
    (d : List (α × β)) (k : α) (v : β) :
    alookup (aset d k v) k = some v := by
  induction d with
  | nil => simp [aset, alookup]
  | cons x t ih =>
    obtain ⟨k0, v0⟩ := x
    by_cases h : k0 = k
    · simp [aset, h, alookup]
    · simp [aset, h, alookup, ih]

theorem alookup_aset_other {α β : Type} [DecidableEq α]
    (d : List (α × β)) (k k2 : α) (v : β) (h : k2 ≠ k) :
    alookup (aset d k v) k2 = alookup d k2 := by
  induction d with
  | nil =>
    simp only [aset, alookup]
    rw [if_neg (fun hh => h (Eq.symm hh))]
  | cons x t ih =>
    obtain ⟨k0, v0⟩ := x
    by_cases h0 : k0 = k
    · subst h0
      simp only [aset, if_pos rfl, alookup]
      by_cases h2 : k0 = k2
      · exact absurd h2.symm h
      · simp [h2]
    · simp only [aset, if_neg h0, alookup]
      by_cases h2 : k0 = k2 <;> simp [h2, ih]

theorem getk_aset_self (d : Fields) (k : String) (v : ℚ) :
    getk (aset d k v) k 0 = v := by
  simp [getk, alookup_aset_self]

theorem getk_aset_other (d : Fields) (k k2 : String) (v : ℚ) (h : k2 ≠ k) :
    getk (aset d k v) k2 0 = getk d k2 0 := by
  simp [getk, alookup_aset_other d k k2 v h]

theorem mem_aset {α β : Type} [DecidableEq α]
    (d : List (α × β)) (k : α) (v : β) :
    ∀ x ∈ aset d k v, x ∈ d ∨ x = (k, v) := by
  induction d with
  | nil => simp [aset]
  | cons y t ih =>
    obtain ⟨k0, v0⟩ := y
    intro x hx
    by_cases h : k0 = k
    · rw [aset, if_pos h] at hx
      rcases List.mem_cons.mp hx with h2 | h2
      · right; rw [h2, h]
      · left; exact List.mem_cons_of_mem _ h2
    · rw [aset, if_neg h] at hx
      rcases List.mem_cons.mp hx with h2 | h2
      · left; rw [h2]; exact List.mem_cons_self _ _
      · rcases ih x h2 with h3 | h3
        · left; exact List.mem_cons_of_mem _ h3
        · right; exact h3

theorem alookup_mem {α β : Type} [DecidableEq α]
    (d : List (α × β)) (k : α) (v : β) (h : alookup d k = some v) :
    (k, v) ∈ d := by
  induction d with
  | nil => simp [alookup] at h
  | cons x t ih =>
    obtain ⟨k0, v0⟩ := x
    rw [alookup] at h
    by_cases h0 : k0 = k
    · rw [if_pos h0] at h
      cases h
      rw [← h0]
      exact List.mem_cons_self _ _
    · rw [if_neg h0] at h
      exact List.mem_cons_of_mem _ (ih h)

theorem alookup_append_right {α β : Type} [DecidableEq α]
    (d d2 : List (α × β)) (k : α) (h : alookup d k = none) :
    alookup (d ++ d2) k = alookup d2 k := by
  induction d with
  | nil => simp
  | cons x t ih =>
    obtain ⟨k0, v0⟩ := x
    rw [alookup] at h
    by_cases h0 : k0 = k
    · rw [if_pos h0] at h
      cases h
    · rw [if_neg h0] at h
      rw [List.cons_append, alookup, if_neg h0]
      exact ih h

/-! The filter predicate (claim C4). -/

theorem filtersLoop_eq_true {α : Type} (env : Env) (p : String) (ic : Bool)
    (arg : α) (sources : List (α → String)) :
    filtersLoop env p ic arg sources = true ↔
      ∀ f ∈ sources, env.research p (f arg) ic = false := by
  induction sources with
  | nil => simp [filtersLoop]
  | cons f rest ih =>
    by_cases h : env.research p (f arg) ic = true
    · simp [filtersLoop, h]
    · have h2 : env.research p (f arg) ic = false := by
        revert h; cases env.research p (f arg) ic <;> simp
      simp [filtersLoop, h2, ih]

/-- Claim C4: with no pattern (None or the falsy empty string) the filter
never excludes; with a pattern, the candidate is excluded iff none of the
probe-string sources, tried in order, matches, and the matcher receives the
configuration's case-insensitivity flag. -/
theorem filters_excluded_iff {α : Type} (env : Env) (arg : α)
    (config : SmemConfig) (sources : List (α → String)) (p : String)
    (hp : p ≠ "") :
    filters env none arg config sources = false ∧
    filters env (some "") arg config sources = false ∧
    (filters env (some p) arg config sources = true ↔
      ∀ f ∈ sources, env.research p (f arg) config.ignorecase = false) := by
  refine ⟨rfl, by simp [filters], ?_⟩
  simp [filters, hp, filtersLoop_eq_true]

/-- Witness for C4 at a concrete pattern, candidate and source list. -/
theorem filters_excluded_iff_witness :
    ("x" : String) ≠ "" ∧
    (filters baseEnv none (7 : Nat) {} [pidtostr] = false ∧
      filters baseEnv (some "") (7 : Nat) {} [pidtostr] = false ∧
      (filters baseEnv (some "x") (7 : Nat) {} [pidtostr] = true ↔
        ∀ f ∈ [pidtostr],
          baseEnv.research "x" (f 7) ({} : SmemConfig).ignorecase = false)) :=
  ⟨by decide, filters_excluded_iff baseEnv 7 {} [pidtostr] "x" (by decide)⟩

/-! Kernel-thread classification (claim C10). -/

/-- Claim C10: a process whose command-line read fails gets the command
string `?`, is not classified as a kernel thread, and (when the pid and
own-pid restrictions allow it) stays in the pid enumeration; a process is
classified as a kernel thread iff its command line reads successfully and
the resulting command string is empty. -/
theorem unreadable_cmdline_kept (env : Env) (config : SmemConfig) (e : String)
    (he : e ∈ env.listdir) (hd : pyisdigit e = true)
    (hc : env.cmdlineF ((strToNat? e).getD 0) = none)
    (hp : truthyPid config.pid = false)
    (ho : ¬((strToNat? e).getD 0 = config.ownpid ∧
        truthyStr config.processfilter = true)) :
    pidcmd env config ((strToNat? e).getD 0) = "?" ∧
    iskernel env config ((strToNat? e).getD 0) = false ∧
    (strToNat? e).getD 0 ∈ pids env config ∧
    ∀ pid : Nat, iskernel env config pid = true ↔
      ((env.cmdlineF pid).isSome = true ∧ pidcmd env config pid = "") := by
  have hcmd : pidcmd env config ((strToNat? e).getD 0) = "?" := by
    simp [pidcmd, hc]
  have hker : iskernel env config ((strToNat? e).getD 0) = false := by
    simp [iskernel, hcmd]
  refine ⟨hcmd, hker, ?_, ?_⟩
  · unfold pids
    rw [List.mem_filterMap]
    refine ⟨e, he, ?_⟩
    rw [if_pos hd, if_pos ?_]
    refine ⟨by simp [hker], Or.inr (by simp [hp]), ho⟩
  · intro pid
    unfold iskernel pidcmd
    cases hcl : env.cmdlineF pid with
    | none => simp
    | some raw => simp

/-! Rollup decision (claim C5). -/

/-- Claim C5: after feature detection the rollup fast path is disabled
exactly when a mapping-name filter is active, per-mapping output was
requested, or the column selection (`maps`, or `all` outside command
grouping) needs full mapping detail — judged on the original configuration,
whose filter and column fields `setdatasources` does not change. -/
theorem rollup_decision (env : Env) (config : SmemConfig) (c2 : SmemConfig)
    (h : setdatasources env config = some c2) :
    c2.rollup = false ↔
      (truthyStr config.mapfilter = true ∨ config.mappings = true ∨
        pyIn "maps" config.columns = true ∨
        (pyIn "all" config.columns = true ∧ config.groupcmd = false)) := by
  unfold setdatasources at h
  simp only [bind, Option.bind_eq_some, Option.map_eq_some'] at h
  obtain ⟨rd, hrd, h⟩ := h
  obtain ⟨md, hmd, h⟩ := h
  obtain ⟨r0, hr0, h⟩ := h
  split at h
  · rename_i hcond
    cases h
    exact ⟨fun _ => hcond, fun _ => rfl⟩
  · rename_i hcond
    cases h
    exact ⟨fun hfalse => absurd (show true = false from hfalse) (by decide),
           fun hr => absurd hr hcond⟩

/-- Witness for C5: a successful feature detection with per-mapping output
requested disables the rollup fast path. -/
theorem rollup_decision_witness :
    setdatasources envProbe { mappings := true } = some
      { mappings := true, rssdetail := true, pssdetail := true,
        rollup := false, swappss := true, ownpid := 99 } ∧
    (({ mappings := true, rssdetail := true, pssdetail := true,
        rollup := false, swappss := true, ownpid := 99 } : SmemConfig).rollup
          = false ↔
      (truthyStr ({ mappings := true } : SmemConfig).mapfilter = true ∨
        ({ mappings := true } : SmemConfig).mappings = true ∨
        pyIn "maps" ({ mappings := true } : SmemConfig).columns = true ∨
        (pyIn "all" ({ mappings := true } : SmemConfig).columns = true ∧
          ({ mappings := true } : SmemConfig).groupcmd = false))) :=
  ⟨by decide, rollup_decision envProbe { mappings := true } _ (by decide)⟩

/-! Counterexample to claim C1 as stated: in full-scan mode on a kernel with
pss detail, no derivation runs. -/

/-- Counterexample for C1: with the rollup format absent (full scan) but pss
detail supported, a record with a private-clean counter of 4 keeps uss 0 —
the claimed derivation uss = private_clean + private_dirty does not happen. -/
theorem fullscan_derivation_cex :
    cfgDetail.rollup = false ∧
    (pidmaps envC1 cfgDetail 1 false).map
        (fun ms => ms.map fun kr =>
          (getk kr.2.fields "uss" 0,
            qadd (getk kr.2.fields "private_clean" 0)
              (getk kr.2.fields "private_dirty" 0))) = some [(0, 4)] ∧
    (0 : ℚ) ≠ 4 := by decide

/-- Counterexample for C2: in full-scan mode without pss detail, a native
Pss value of 10 parsed from the field lines is overwritten by the derivation
(which yields 0 here), so supplied values do not take precedence. -/
theorem native_precedence_cex :
    cfgFull.rollup = false ∧
    (parseMaps cfgFull false (mapdata envC2 cfgFull 1) [] none).map
        (fun pr => pr.1.map fun kr => getk kr.2.fields "pss" 0) =
      some [10] ∧
    (pidmaps envC2 cfgFull 1 false).map
        (fun ms => ms.map fun kr => getk kr.2.fields "pss" 0) = some [0] ∧
    (10 : ℚ) ≠ 0 := by decide

/-- Evaluation for C7: in rollup mode the status VmSize value is never
assigned (the whole VmSize block is guarded by `not config.rollup`, making
its rollup branch unreachable), so the single synthetic record keeps size 0;
in full-scan mode the value is floor-distributed evenly (1000 over three
mappings gives 333 each) as the claim states. -/
theorem vmsize_rollup_eval :
    ({} : SmemConfig).rollup = true ∧
    envRoll.statusF 1 = some ["VmSize: 1000 kB"] ∧
    (pidmaps envRoll {} 1 false).map
        (fun ms => ms.map fun kr => getk kr.2.fields "size" 0) = some [0] ∧
    cfgDetail.rollup = false ∧
    (pidmaps envFS3 cfgDetail 1 false).map
        (fun ms => ms.map fun kr => getk kr.2.fields "size" 0) =
      some [333, 333, 333] := by decide

/-- Counterexample for C8: a command whose only process has unreadable
mapping data (zero surviving totals) is kept in the result with all-zero
totals, not removed. -/
theorem cmd_zero_totals_kept_cex :
    pidmaps envCmd {} 5 false = some [] ∧
    cmdtotals envCmd {} [5] =
      some [("foo", CmdGroup.mk [5]
        [("uss", 0), ("pss", 0), ("rss", 0), ("swap", 0), ("size", 0)]
        (some "foo") (some "?"))] := by decide

/-- Witness for C10 at a concrete unreadable process. -/
theorem unreadable_cmdline_kept_witness :
    ("5" ∈ ({ baseEnv with listdir := ["5"] } : Env).listdir) ∧
    pyisdigit "5" = true ∧
    ({ baseEnv with listdir := ["5"] } : Env).cmdlineF
      ((strToNat? "5").getD 0) = none ∧
    truthyPid ({} : SmemConfig).pid = false ∧
    (pidcmd { baseEnv with listdir := ["5"] } {} ((strToNat? "5").getD 0) = "?" ∧
      iskernel { baseEnv with listdir := ["5"] } {} ((strToNat? "5").getD 0)
        = false ∧
      (strToNat? "5").getD 0 ∈ pids { baseEnv with listdir := ["5"] } {} ∧
      ∀ pid : Nat,
        iskernel { baseEnv with listdir := ["5"] } {} pid = true ↔
          ((({ baseEnv with listdir := ["5"] } : Env).cmdlineF pid).isSome
              = true ∧
            pidcmd { baseEnv with listdir := ["5"] } {} pid = "")) :=
  ⟨by decide, by decide, by decide, by decide,
    unreadable_cmdline_kept { baseEnv with listdir := ["5"] } {} "5"
      (by decide) (by decide) (by decide) (by decide) (by decide)⟩

/-! Field-agreement machinery for the pidmaps enrichment steps. -/

theorem getk_aset (d : Fields) (k k2 : String) (v : ℚ) :
    getk (aset d k v) k2 0 = if k2 = k then v else getk d k2 0 := by
  by_cases h : k2 = k
  · rw [if_pos h, h, getk_aset_self]
  · rw [if_neg h, getk_aset_other d k k2 v h]

theorem getk_eq_of_agree {ks : List String} {d d2 : Fields} {key : String}
    (hag : agreeOutside ks d d2) (hk : key ∉ ks) :
    getk d2 key 0 = getk d key 0 := by
  unfold getk
  rw [hag key hk]

theorem agreeOutside_refl (ks : List String) (d : Fields) :
    agreeOutside ks d d := fun _ _ => rfl

theorem agreeOutside_trans {ks : List String} {d d2 d3 : Fields}
    (h1 : agreeOutside ks d d2) (h2 : agreeOutside ks d2 d3) :
    agreeOutside ks d d3 :=
  fun key hk => (h2 key hk).trans (h1 key hk)

theorem agreeOutside_aset (ks : List String) (d : Fields) (key : String)
    (v : ℚ) (hk : key ∈ ks) : agreeOutside ks d (aset d key v) :=
  fun k2 hk2 =>
    alookup_aset_other d key k2 v (fun hh => hk2 (hh ▸ hk))

theorem stepRel_refl (ks : List String) (maps : Maps) :
    stepRel ks maps maps := by
  intro x hx
  exact ⟨x.2, by simpa using hx, agreeOutside_refl ks x.2.fields⟩

theorem stepRel_trans {ks : List String} {a b c : Maps}
    (h1 : stepRel ks a b) (h2 : stepRel ks b c) : stepRel ks a c := by
  intro x hx
  obtain ⟨r2, hr2, hag2⟩ := h2 x hx
  obtain ⟨r1, hr1, hag1⟩ := h1 (x.1, r2) hr2
  exact ⟨r1, hr1, agreeOutside_trans hag1 hag2⟩

theorem stepRel_updf {ks : List String} {maps maps2 : Maps} {k : Nat}
    {key : String} {v : ℚ} (hk : key ∈ ks)
    (h : updf? maps k key v = some maps2) : stepRel ks maps maps2 := by
  unfold updf? at h
  cases hl : alookup maps k with
  | none => rw [hl] at h; cases h
  | some r =>
    rw [hl] at h
    cases h
    intro x hx
    rcases mem_aset _ _ _ x hx with hmem | heq
    · exact ⟨x.2, by simpa using hmem, agreeOutside_refl ks x.2.fields⟩
    · refine ⟨r, ?_, ?_⟩
      · rw [heq]
        exact alookup_mem maps k r hl
      · rw [heq]
        exact agreeOutside_aset ks r.fields key v hk

theorem stepRel_rssLine {maps maps2 : Maps} {start : Option Nat} {s : String}
    (h : rssLine maps start s = some maps2) :
    stepRel touchedKeys maps maps2 := by
  unfold rssLine at h
  split at h
  · simp only [bind, Option.bind_eq_some] at h
    obtain ⟨tok, _, v, _, st, _, hupd⟩ := h
    exact stepRel_updf (by decide) hupd
  · split at h
    · simp only [bind, Option.bind_eq_some] at h
      obtain ⟨tok, _, v, _, st, _, hupd⟩ := h
      exact stepRel_updf (by decide) hupd
    · split at h
      · simp only [bind, Option.bind_eq_some] at h
        obtain ⟨tok, _, v, _, st, _, hupd⟩ := h
        exact stepRel_updf (by decide) hupd
      · cases h
        exact stepRel_refl _ _

theorem stepRel_rssLines {start : Option Nat} :
    ∀ (lines : List String) (maps maps2 : Maps),
      rssLines start lines maps = some maps2 →
      stepRel touchedKeys maps maps2 := by
  intro lines
  induction lines with
  | nil =>
    intro maps maps2 h
    cases h
    exact stepRel_refl _ _
  | cons s rest ih =>
    intro maps maps2 h
    unfold rssLines at h
    cases hline : rssLine maps start s with
    | none => rw [hline] at h; cases h
    | some mid =>
      rw [hline] at h
      exact stepRel_trans (stepRel_rssLine hline) (ih mid maps2 h)

theorem stepRel_rssStep {config : SmemConfig} {status : Option (List String)}
    {start : Option Nat} {maps maps2 : Maps}
    (h : rssStep config status start maps = some maps2) :
    stepRel touchedKeys maps maps2 := by
  unfold rssStep at h
  split at h
  · exact stepRel_rssLines _ maps maps2 h
  · cases h
    exact stepRel_refl _ _

theorem stepRel_vmsizeApply {config : SmemConfig} {start : Option Nat} :
    ∀ (lines : List String) (maps maps2 : Maps),
      vmsizeApply config start lines maps = some maps2 →
      stepRel touchedKeys maps maps2 := by
  intro lines
  induction lines with
  | nil =>
    intro maps maps2 h
    cases h
    exact stepRel_refl _ _
  | cons s rest ih =>
    intro maps maps2 h
    unfold vmsizeApply at h
    split at h
    · split at h
      · simp only [bind, Option.bind_eq_some] at h
        obtain ⟨tok, _, v, _, st, _, hupd⟩ := h
        exact stepRel_updf (by decide) hupd
      · simp only [bind, Option.bind_eq_some] at h
        obtain ⟨tok, _, total, _, h⟩ := h
        split at h
        · cases h
          intro x hx
          rcases List.mem_map.mp hx with ⟨y, hy, hxy⟩
          refine ⟨y.2, ?_, ?_⟩
          · rw [← hxy]
            simpa using hy
          · rw [← hxy]
            exact agreeOutside_aset _ y.2.fields "size" _ (by decide)
        · cases h
          exact stepRel_refl _ _
    · exact ih maps maps2 h

theorem stepRel_vmsizeStep {config : SmemConfig}
    {status : Option (List String)} {start : Option Nat} {maps maps2 : Maps}
    (h : vmsizeStep config status start maps = some maps2) :
    stepRel touchedKeys maps maps2 := by
  unfold vmsizeStep at h
  split at h
  · exact stepRel_vmsizeApply _ maps maps2 h
  · cases h
    exact stepRel_refl _ _

theorem stepRel_mapfilterStep (env : Env) (config : SmemConfig)
    (nomaps : Bool) (maps : Maps) :
    stepRel touchedKeys maps (mapfilterStep env config nomaps maps) := by
  unfold mapfilterStep
  split
  · intro x hx
    exact ⟨x.2, by simpa using List.mem_of_mem_filter hx,
      agreeOutside_refl _ x.2.fields⟩
  · exact stepRel_refl _ _

/-- Inversion of a successful `pidmaps` run into its stages. -/
theorem pidmaps_inv {env : Env} {config : SmemConfig} {pid : Nat}
    {final : Maps} (h : pidmaps env config pid false = some final) :
    ∃ maps0 start m2 m3,
      parseMaps config false (mapdata env config pid) [] none =
        some (maps0, start) ∧
      rssStep config (statusRead env config pid) start
        (deriveStep config maps0) = some m2 ∧
      vmsizeStep config (statusRead env config pid) start m2 = some m3 ∧
      final = mapfilterStep env config false m3 := by
  unfold pidmaps at h
  simp only [bind, Option.bind_eq_some] at h
  obtain ⟨pr, hpr, h⟩ := h
  obtain ⟨maps0, start⟩ := pr
  simp only [Option.bind_eq_some] at h
  obtain ⟨m2, hm2, h⟩ := h
  obtain ⟨m3, hm3, h⟩ := h
  cases h
  exact ⟨maps0, start, m2, m3, hpr, hm2, hm3, rfl⟩

/-- The post-parse stages of `pidmaps` only write the touched keys. -/
theorem pidmaps_stepRel {env : Env} {config : SmemConfig} {pid : Nat}
    {final : Maps} {maps0 : Maps} {start : Option Nat} {m2 m3 : Maps}
    (h2 : rssStep config (statusRead env config pid) start
        (deriveStep config maps0) = some m2)
    (h3 : vmsizeStep config (statusRead env config pid) start m2 = some m3)
    (hf : final = mapfilterStep env config false m3) :
    stepRel touchedKeys (deriveStep config maps0) final := by
  refine stepRel_trans (stepRel_rssStep h2)
    (stepRel_trans (stepRel_vmsizeStep h3) ?_)
  rw [hf]
  exact stepRel_mapfilterStep env config false m3

/-- The derivation establishes the full-scan equations on a record. -/
theorem deriveRec_fullScanEqs (r : MapRec) : fullScanEqs (deriveRec r) := by
  unfold deriveRec fullScanEqs
  simp [getk_aset]

/-- The full-scan equations only mention untouched keys, so they survive the
later enrichment steps. -/
theorem fullScanEqs_transport {r r2 : MapRec}
    (hag : agreeOutside touchedKeys r.fields r2.fields)
    (h : fullScanEqs r) : fullScanEqs r2 := by
  unfold fullScanEqs at h ⊢
  rw [getk_eq_of_agree hag (by decide : ("uss" : String) ∉ touchedKeys),
    getk_eq_of_agree hag (by decide : ("pss" : String) ∉ touchedKeys),
    getk_eq_of_agree hag (by decide : ("rss" : String) ∉ touchedKeys),
    getk_eq_of_agree hag (by decide : ("private_clean" : String) ∉ touchedKeys),
    getk_eq_of_agree hag (by decide : ("private_dirty" : String) ∉ touchedKeys),
    getk_eq_of_agree hag (by decide : ("shared_clean" : String) ∉ touchedKeys),
    getk_eq_of_agree hag (by decide : ("shared_dirty" : String) ∉ touchedKeys)]
  exact h

/-- Helper: under the derivation condition, every returned record satisfies
the full-scan equations. -/
theorem pidmaps_derive_core {env : Env} {config : SmemConfig} {pid : Nat}
    {final maps0 : Maps} {start : Option Nat}
    (hcond : config.rollup = false ∧ config.pssdetail = false)
    (h : pidmaps env config pid false = some final)
    (h0 : parseMaps config false (mapdata env config pid) [] none =
      some (maps0, start)) :
    ∀ kr ∈ final, fullScanEqs kr.2 := by
  obtain ⟨maps0', start', m2, m3, h0', h2, h3, hf⟩ := pidmaps_inv h
  rw [h0] at h0'
  have hpair := Option.some.inj h0'
  have hm : maps0 = maps0' := congrArg Prod.fst hpair
  subst hm
  intro kr hkr
  obtain ⟨r, hrmem, hag⟩ := pidmaps_stepRel h2 h3 hf kr hkr
  have hds : deriveStep config maps0 =
      maps0.map fun y => (y.1, deriveRec y.2) := by
    unfold deriveStep
    rw [if_pos hcond]
  rw [hds] at hrmem
  rcases List.mem_map.mp hrmem with ⟨y, hy, hxy⟩
  have hr : deriveRec y.2 = r := congrArg Prod.snd hxy
  exact fullScanEqs_transport hag (hr ▸ deriveRec_fullScanEqs y.2)

/-- Helper: outside the derivation condition, the pss, rss and uss counters
of every returned record are exactly the parsed ones. -/
theorem pidmaps_core_preserved {env : Env} {config : SmemConfig} {pid : Nat}
    {final maps0 : Maps} {start : Option Nat}
    (hnd : ¬(config.rollup = false ∧ config.pssdetail = false))
    (h : pidmaps env config pid false = some final)
    (h0 : parseMaps config false (mapdata env config pid) [] none =
      some (maps0, start)) :
    ∀ kr ∈ final, ∃ r0, (kr.1, r0) ∈ maps0 ∧
      getk kr.2.fields "pss" 0 = getk r0.fields "pss" 0 ∧
      getk kr.2.fields "rss" 0 = getk r0.fields "rss" 0 ∧
      getk kr.2.fields "uss" 0 = getk r0.fields "uss" 0 := by
  obtain ⟨maps0', start', m2, m3, h0', h2, h3, hf⟩ := pidmaps_inv h
  rw [h0] at h0'
  have hpair := Option.some.inj h0'
  have hm : maps0 = maps0' := congrArg Prod.fst hpair
  subst hm
  intro kr hkr
  obtain ⟨r, hrmem, hag⟩ := pidmaps_stepRel h2 h3 hf kr hkr
  have hds : deriveStep config maps0 = maps0 := by
    unfold deriveStep
    rw [if_neg hnd]
  rw [hds] at hrmem
  exact ⟨r, hrmem,
    getk_eq_of_agree hag (by decide : ("pss" : String) ∉ touchedKeys),
    getk_eq_of_agree hag (by decide : ("rss" : String) ∉ touchedKeys),
    getk_eq_of_agree hag (by decide : ("uss" : String) ∉ touchedKeys)⟩

/-- Claim C1 (amended): the derivations USS = private-clean + private-dirty,
PSS = USS + shared-clean/2, RSS = shared-clean + shared-dirty are applied to
every returned record exactly when the rollup fast path is off AND the
kernel's pss-detail fields are unsupported. In every other configuration —
including full-scan mode with pss detail — the pss, rss and uss counters are
returned exactly as parsed. -/
theorem fullscan_derivation_amended (env : Env) (config : SmemConfig)
    (pid : Nat) (final maps0 : Maps) (start : Option Nat)
    (h : pidmaps env config pid false = some final)
    (h0 : parseMaps config false (mapdata env config pid) [] none =
      some (maps0, start)) :
    (config.rollup = false ∧ config.pssdetail = false →
      ∀ kr ∈ final, fullScanEqs kr.2) ∧
    (¬(config.rollup = false ∧ config.pssdetail = false) →
      ∀ kr ∈ final, ∃ r0, (kr.1, r0) ∈ maps0 ∧
        getk kr.2.fields "pss" 0 = getk r0.fields "pss" 0 ∧
        getk kr.2.fields "rss" 0 = getk r0.fields "rss" 0 ∧
        getk kr.2.fields "uss" 0 = getk r0.fields "uss" 0) :=
  ⟨fun hcond => pidmaps_derive_core hcond h h0,
   fun hnd => pidmaps_core_preserved hnd h h0⟩

/-- Witness for C1 on the `envA` fixture in derivation mode. -/
theorem fullscan_derivation_amended_witness :
    pidmaps envA cfgFull 1 false = some mapsAfinal ∧
    parseMaps cfgFull false (mapdata envA cfgFull 1) [] none =
      some (mapsAparsed, some 4194304) ∧
    ((cfgFull.rollup = false ∧ cfgFull.pssdetail = false →
        ∀ kr ∈ mapsAfinal, fullScanEqs kr.2) ∧
      (¬(cfgFull.rollup = false ∧ cfgFull.pssdetail = false) →
        ∀ kr ∈ mapsAfinal, ∃ r0, (kr.1, r0) ∈ mapsAparsed ∧
          getk kr.2.fields "pss" 0 = getk r0.fields "pss" 0 ∧
          getk kr.2.fields "rss" 0 = getk r0.fields "rss" 0 ∧
          getk kr.2.fields "uss" 0 = getk r0.fields "uss" 0)) :=
  ⟨by decide, by decide,
    fullscan_derivation_amended envA cfgFull 1 mapsAfinal mapsAparsed
      (some 4194304) (by decide) (by decide)⟩

set_option maxHeartbeats 2000000 in
/-- Claim C2 (amended): in full-scan mode with pss detail supported, the
natively supplied pss/rss/uss field values take precedence — every returned
record carries them exactly as parsed — and on the consistent two-block
fixture the per-process pss/rss/uss totals agree between the native path and
the full-scan derivation path (both yield pss 8, rss 7, uss 6). -/
theorem native_precedence_amended (env : Env) (config : SmemConfig)
    (pid : Nat) (final maps0 : Maps) (start : Option Nat)
    (hc : config.rollup = false) (hd : config.pssdetail = true)
    (h : pidmaps env config pid false = some final)
    (h0 : parseMaps config false (mapdata env config pid) [] none =
      some (maps0, start)) :
    (∀ kr ∈ final, ∃ r0, (kr.1, r0) ∈ maps0 ∧
      getk kr.2.fields "pss" 0 = getk r0.fields "pss" 0 ∧
      getk kr.2.fields "rss" 0 = getk r0.fields "rss" 0 ∧
      getk kr.2.fields "uss" 0 = getk r0.fields "uss" 0) ∧
    (pidtotals envFix cfgDetail 1).map coreOfTotals = some (8, 7, 6) ∧
    (pidtotals envFix cfgFull 1).map coreOfTotals = some (8, 7, 6) := by
  refine ⟨pidmaps_core_preserved ?_ h h0, by decide, by decide⟩
  intro hcontra
  rw [hd] at hcontra
  exact absurd hcontra.2 (by decide)

set_option maxHeartbeats 2000000 in
/-- Witness for C2 on the `envFix` fixture in native (pss-detail) mode. -/
theorem native_precedence_amended_witness :
    cfgDetail.rollup = false ∧ cfgDetail.pssdetail = true ∧
    pidmaps envFix cfgDetail 1 false = some mapsFix ∧
    parseMaps cfgDetail false (mapdata envFix cfgDetail 1) [] none =
      some (mapsFix, some 5242880) ∧
    ((∀ kr ∈ mapsFix, ∃ r0, (kr.1, r0) ∈ mapsFix ∧
        getk kr.2.fields "pss" 0 = getk r0.fields "pss" 0 ∧
        getk kr.2.fields "rss" 0 = getk r0.fields "rss" 0 ∧
        getk kr.2.fields "uss" 0 = getk r0.fields "uss" 0) ∧
      (pidtotals envFix cfgDetail 1).map coreOfTotals = some (8, 7, 6) ∧
      (pidtotals envFix cfgFull 1).map coreOfTotals = some (8, 7, 6)) :=
  ⟨by decide, by decide, by decide, by decide,
    native_precedence_amended envFix cfgDetail 1 mapsFix mapsFix
      (some 5242880) (by decide) (by decide) (by decide) (by decide)⟩

/-! Bridge lemmas from the kernel-computable rational operations to the
standard field operations. -/

theorem qOfInt_eq (n : Int) : qOfInt n = (n : ℚ) := by
  unfold qOfInt
  rw [Rat.mkRat_eq_div]
  simp

theorem qadd_eq (a b : ℚ) : qadd a b = a + b := by
  unfold qadd
  rw [Rat.mkRat_eq_div]
  have ha : (a.den : ℚ) ≠ 0 := Nat.cast_ne_zero.mpr a.den_nz
  have hb : (b.den : ℚ) ≠ 0 := Nat.cast_ne_zero.mpr b.den_nz
  push_cast
  conv_rhs => rw [← Rat.num_div_den a, ← Rat.num_div_den b,
    div_add_div _ _ ha hb]
  ring_nf

theorem qsum_foldl (l : List ℚ) (acc : ℚ) :
    List.foldl qadd acc l = acc + l.sum := by
  induction l generalizing acc with
  | nil => simp
  | cons x t ih => simp [qadd_eq, ih, add_assoc]

theorem qsum_eq (l : List ℚ) : qsum l = l.sum := by
  unfold qsum
  rw [qsum_foldl, qOfInt_eq]
  simp

/-! Additivity of the per-user grouping (claim C3). -/

theorem alookup_none_iff {α β : Type} [DecidableEq α]
    (d : List (α × β)) (k : α) :
    alookup d k = none ↔ k ∉ d.map Prod.fst := by
  induction d with
  | nil => simp [alookup]
  | cons x t ih =>
    obtain ⟨k0, v0⟩ := x
    by_cases h : k0 = k
    · subst h
      simp [alookup]
    · simp [alookup, h, ih, Ne.symm h]

theorem alookup_addInto (t pt : Fields) (k : String) :
    alookup (addInto t pt) k =
      (alookup t k).map (fun v => v + getk pt k 0) := by
  induction t with
  | nil => simp [addInto, alookup]
  | cons x tl ih =>
    obtain ⟨k0, v0⟩ := x
    by_cases h : k0 = k
    · subst h
      cases hpt : alookup pt k0 with
      | none => simp [addInto, alookup, hpt, getk]
      | some w => simp [addInto, alookup, hpt, getk, qadd_eq]
    · cases hpt : alookup pt k0 with
      | none => simpa [addInto, alookup, hpt, h] using ih
      | some w => simpa [addInto, alookup, hpt, h] using ih

/-- The key loop invariant of `processtotals`: each accumulator entry grows
by the sum of that field over the processed pids. -/
theorem ptGo_alookup (env : Env) (config : SmemConfig) (k : String) :
    ∀ (ps : List Nat) (t tf : Fields), ptGo env config ps t = some tf →
      alookup tf k =
        (alookup t k).map (fun v => v + (ps.map (fieldOf env config k)).sum) := by
  intro ps
  induction ps with
  | nil =>
    intro t tf h
    cases h
    simp
  | cons p rest ih =>
    intro t tf h
    unfold ptGo at h
    simp only [bind, Option.bind_eq_some] at h
    obtain ⟨pt, hpt, h⟩ := h
    have hfield : fieldOf env config k p = getk pt k 0 := by
      unfold fieldOf
      rw [hpt]
    split at h
    · rw [ih _ _ h, alookup_addInto]
      cases alookup t k with
      | none => simp
      | some v => simp [getk, hfield, add_assoc]
    · rename_i hempty
      have hpte : pt = [] := by
        by_cases hc : pt = []
        · exact hc
        · exact absurd hc hempty
      rw [ih _ _ h]
      cases alookup t k with
      | none => simp
      | some v => simp [hfield, hpte, getk, alookup]

theorem alookup_ptInit_pss (config : SmemConfig) :
    alookup (ptInit config) "pss" = some 0 := by
  unfold ptInit
  cases config.swappss <;> simp [alookup]

/-- The pss entry of `processtotals` is the sum of the member pss totals. -/
theorem processtotals_pss (env : Env) (config : SmemConfig) (ps : List Nat)
    (tf : Fields) (h : processtotals env config ps = some tf) :
    getk tf "pss" 0 = (ps.map (pssOf env config)).sum := by
  unfold processtotals at h
  have := ptGo_alookup env config "pss" ps (ptInit config) tf h
  rw [alookup_ptInit_pss] at this
  unfold getk pssOf
  rw [this]
  simp

/-- The totals loop of `usertotals` maps each bucket to the sum of its
members' pss totals. -/
theorem userTotalsGo_pss (env : Env) (config : SmemConfig) :
    ∀ (bs : UserBuckets) (ut : List (Int × UserGroup)),
      userTotalsGo env config bs = some ut →
      ut.map (fun g => getk g.2.totals "pss" 0) =
        bs.map (fun ke => ((ke.2.2).map (pssOf env config)).sum) := by
  intro bs
  induction bs with
  | nil =>
    intro ut h
    cases h
    simp
  | cons ke rest ih =>
    intro ut h
    unfold userTotalsGo at h
    simp only [bind, Option.bind_eq_some] at h
    obtain ⟨t, ht, r, hr, h⟩ := h
    cases h
    simp only [List.map_cons]
    rw [ih r hr, processtotals_pss env config ke.2.2 t ht]

/-- Per-bucket member-sum of the pss observable. -/
def bucketPss (env : Env) (config : SmemConfig) (gs : UserBuckets) : ℚ :=
  (gs.map fun ke => ((ke.2.2).map (pssOf env config)).sum).sum

theorem bumpUser_keys (gs : UserBuckets) (u : Int) (p : Nat) :
    (bumpUser gs u p).map Prod.fst = gs.map Prod.fst := by
  unfold bumpUser
  rw [List.map_map]
  apply List.map_congr_left
  intro ke _
  by_cases h : ke.1 = u <;> simp [h]

theorem bumpUser_not_mem (gs : UserBuckets) (u : Int) (p : Nat)
    (h : u ∉ gs.map Prod.fst) : bumpUser gs u p = gs := by
  unfold bumpUser
  conv_rhs => rw [← List.map_id gs]
  apply List.map_congr_left
  intro ke hke
  have hne : ke.1 ≠ u := by
    intro hequ
    exact h (hequ ▸ List.mem_map_of_mem Prod.fst hke)
  simp [hne]

theorem bucketPss_bump (env : Env) (config : SmemConfig) :
    ∀ (gs : UserBuckets) (u : Int) (p : Nat),
      (gs.map Prod.fst).Nodup → u ∈ gs.map Prod.fst →
      bucketPss env config (bumpUser gs u p) =
        bucketPss env config gs + pssOf env config p := by
  intro gs
  induction gs with
  | nil =>
    intro u p _ hmem
    simp at hmem
  | cons ke rest ih =>
    intro u p hnd hmem
    have hnd2 : (rest.map Prod.fst).Nodup := (List.nodup_cons.mp hnd).2
    by_cases h : ke.1 = u
    · have hnotin : u ∉ rest.map Prod.fst := h ▸ (List.nodup_cons.mp hnd).1
      have hstep : bumpUser (ke :: rest) u p =
          (ke.1, (ke.2.1, ke.2.2 ++ [p])) :: rest := by
        show (if ke.1 = u then (ke.1, (ke.2.1, ke.2.2 ++ [p])) else ke) ::
          bumpUser rest u p = _
        rw [if_pos h, bumpUser_not_mem rest u p hnotin]
      rw [hstep]
      simp only [bucketPss, List.map_cons, List.sum_cons, List.map_append,
        List.sum_append, List.map_nil, List.sum_nil, List.sum_cons]
      ring
    · have hmem2 : u ∈ rest.map Prod.fst := by
        rw [List.map_cons] at hmem
        rcases List.mem_cons.mp hmem with h1 | h2
        · exact absurd h1.symm h
        · exact h2
      have hstep : bumpUser (ke :: rest) u p = ke :: bumpUser rest u p := by
        show (if ke.1 = u then (ke.1, (ke.2.1, ke.2.2 ++ [p])) else ke) ::
          bumpUser rest u p = _
        rw [if_neg h]
      rw [hstep]
      simp only [bucketPss, List.map_cons, List.sum_cons]
      have hih := ih u p hnd2 hmem2
      unfold bucketPss at hih
      rw [hih]
      ring

theorem ensureUser_mem (env : Env) (gs : UserBuckets) (u : Int) :
    u ∈ (ensureUser env gs u).map Prod.fst := by
  unfold ensureUser
  cases hl : alookup gs u with
  | some e => exact List.mem_map_of_mem Prod.fst (alookup_mem gs u e hl)
  | none => simp

theorem ensureUser_nodup (env : Env) (gs : UserBuckets) (u : Int)
    (hnd : (gs.map Prod.fst).Nodup) :
    ((ensureUser env gs u).map Prod.fst).Nodup := by
  unfold ensureUser
  cases hl : alookup gs u with
  | some e => exact hnd
  | none =>
    have hnot : u ∉ gs.map Prod.fst := (alookup_none_iff gs u).mp hl
    rw [List.map_append]
    simp only [List.map_cons, List.map_nil]
    rw [List.nodup_append]
    exact ⟨hnd, List.nodup_singleton u,
      fun a ha hb => hnot ((List.mem_singleton.mp hb) ▸ ha)⟩

theorem ensureUser_bucketPss (env : Env) (config : SmemConfig)
    (gs : UserBuckets) (u : Int) :
    bucketPss env config (ensureUser env gs u) = bucketPss env config gs := by
  unfold ensureUser
  cases alookup gs u with
  | some e => rfl
  | none => simp [bucketPss]

theorem skipPid_none (env : Env) (config : SmemConfig) (p : Nat)
    (hpf : config.processfilter = none) (huf : config.userfilter = none) :
    skipPid env config p = false := by
  simp [skipPid, filters, hpf, huf]

/-- The grouping loop of `usertotals` partitions the pid list: the bucket
member sums add up to the plain sum over the pid list, and bucket keys stay
distinct. -/
theorem userBuckets_foldl_pss (env : Env) (config : SmemConfig)
    (hpf : config.processfilter = none) (huf : config.userfilter = none) :
    ∀ (ps : List Nat) (gs : UserBuckets), (gs.map Prod.fst).Nodup →
      bucketPss env config (List.foldl
        (fun ut p => if skipPid env config p then ut
          else bumpUser (ensureUser env ut (piduser env p)) (piduser env p) p)
        gs ps) =
        bucketPss env config gs + (ps.map (pssOf env config)).sum ∧
      ((List.foldl
        (fun ut p => if skipPid env config p then ut
          else bumpUser (ensureUser env ut (piduser env p)) (piduser env p) p)
        gs ps).map Prod.fst).Nodup := by
  intro ps
  induction ps with
  | nil =>
    intro gs hnd
    refine ⟨by simp, by simpa using hnd⟩
  | cons p rest ih =>
    intro gs hnd
    rw [List.foldl_cons]
    have hskip : skipPid env config p = false := skipPid_none env config p hpf huf
    rw [if_neg (by simp [hskip])]
    have hnd2 : ((ensureUser env gs (piduser env p)).map Prod.fst).Nodup :=
      ensureUser_nodup env gs (piduser env p) hnd
    have hnd3 : ((bumpUser (ensureUser env gs (piduser env p))
        (piduser env p) p).map Prod.fst).Nodup := by
      rw [bumpUser_keys]
      exact hnd2
    obtain ⟨hsum, hndf⟩ := ih
      (bumpUser (ensureUser env gs (piduser env p)) (piduser env p) p) hnd3
    refine ⟨?_, hndf⟩
    rw [hsum, bucketPss_bump env config _ _ _ hnd2
      (ensureUser_mem env gs (piduser env p)),
      ensureUser_bucketPss env config gs (piduser env p)]
    simp only [List.map_cons, List.sum_cons]
    ring

/-- Claim C3: for a pid set with no process or user filter active, the sum
over all user groups of the group's pss total equals the sum over all
processes of the per-process pss total: per-user aggregation neither drops
nor double-counts any process's pss. -/
theorem usertotals_pss_additive (env : Env) (config : SmemConfig)
    (ps : List Nat) (ut : List (Int × UserGroup))
    (hpf : config.processfilter = none) (huf : config.userfilter = none)
    (h : usertotals env config ps = some ut) :
    (ut.map fun g => getk g.2.totals "pss" 0).sum =
      (ps.map (pssOf env config)).sum := by
  unfold usertotals at h
  rw [userTotalsGo_pss env config _ _ h]
  show bucketPss env config (userBuckets env config ps) = _
  unfold userBuckets
  rw [(userBuckets_foldl_pss env config hpf huf ps [] (by simp)).1]
  simp [bucketPss]

/-- Witness for C3: two processes owned by two users, pss 10 and 20. -/
theorem usertotals_pss_additive_witness :
    ({} : SmemConfig).processfilter = none ∧
    ({} : SmemConfig).userfilter = none ∧
    usertotals envUsers {} [4, 5] = some utUsers ∧
    (utUsers.map fun g => getk g.2.totals "pss" 0).sum =
      (([4, 5] : List Nat).map (pssOf envUsers ({} : SmemConfig))).sum :=
  ⟨rfl, rfl, by decide,
    usertotals_pss_additive envUsers ({} : SmemConfig) [4, 5] utUsers rfl rfl
      (by decide)⟩

/-! Command grouping never removes entries (claim C8). -/

theorem addInto_length (t pt : Fields) : (addInto t pt).length = t.length := by
  unfold addInto
  exact List.length_map t _

theorem ptGo_length (env : Env) (config : SmemConfig) :
    ∀ (ps : List Nat) (t tf : Fields), ptGo env config ps t = some tf →
      tf.length = t.length := by
  intro ps
  induction ps with
  | nil =>
    intro t tf h
    cases h
    rfl
  | cons p rest ih =>
    intro t tf h
    unfold ptGo at h
    simp only [bind, Option.bind_eq_some] at h
    obtain ⟨pt, hpt, h⟩ := h
    split at h
    · rw [ih _ _ h, addInto_length]
    · exact ih _ _ h

theorem processtotals_ne_nil (env : Env) (config : SmemConfig)
    (ps : List Nat) (t : Fields) (h : processtotals env config ps = some t) :
    t ≠ [] := by
  unfold processtotals at h
  have hlen := ptGo_length env config ps (ptInit config) t h
  intro hnil
  rw [hnil] at hlen
  have : (ptInit config).length ≠ 0 := by
    unfold ptInit
    cases config.swappss <;> simp
  exact this hlen.symm

theorem cmdTotalsPhase_ne_nil (env : Env) (config : SmemConfig) :
    ∀ (bs : List (String × List Nat)) (ct : List (String × CmdGroup)),
      cmdTotalsPhase env config bs = some ct →
      ∀ ke ∈ ct, ke.2.totals ≠ [] := by
  intro bs
  induction bs with
  | nil =>
    intro ct h
    cases h
    intro ke hke
    simp at hke
  | cons b rest ih =>
    intro ct h
    unfold cmdTotalsPhase at h
    simp only [bind, Option.bind_eq_some] at h
    obtain ⟨t, ht, r, hr, h⟩ := h
    cases h
    intro ke hke
    rcases List.mem_cons.mp hke with hke | hke
    · have hne := processtotals_ne_nil env config b.2 t ht
      rw [hke]
      split <;> exact hne
    · exact ih r hr ke hke

/-- Claim C8 (amended): no command entry is ever removed. The per-command
totals dict always carries the five base keys, hence is never empty, so the
removal loop is a no-op: `cmdtotals` returns exactly the totals phase's
output — a command whose processes are all unreadable is kept with all-zero
totals (commands whose processes are all filtered out never enter the
grouping in the first place). -/
theorem cmdtotals_keeps_all (env : Env) (config : SmemConfig) (ps : List Nat)
    (ct : List (String × CmdGroup)) (h : cmdtotals env config ps = some ct) :
    (∀ ke ∈ ct, ke.2.totals ≠ []) ∧
    cmdTotalsPhase env config (cmdBuckets env config ps) = some ct := by
  unfold cmdtotals at h
  simp only [bind, Option.bind_eq_some] at h
  obtain ⟨ct0, hct0, h⟩ := h
  cases h
  have hne := cmdTotalsPhase_ne_nil env config _ ct0 hct0
  have hfix : cmdRemoveEmpty ct0 = ct0 := by
    unfold cmdRemoveEmpty
    apply List.filter_eq_self.mpr
    intro a ha
    simpa using hne a ha
  rw [hfix]
  exact ⟨hne, hct0⟩

/-- Witness for C8 on the unreadable-process fixture. -/
theorem cmdtotals_keeps_all_witness :
    cmdtotals envCmd {} [5] = some ctCmd ∧
    ((∀ ke ∈ ctCmd, ke.2.totals ≠ []) ∧
      cmdTotalsPhase envCmd {} (cmdBuckets envCmd {} [5]) = some ctCmd) :=
  ⟨by decide, cmdtotals_keeps_all envCmd ({} : SmemConfig) [5] ctCmd
    (by decide)⟩

/-- Counterexample for C9: the mapping-name filter overwrite is not
temporary — after `get_system_data` returns in detailed mode the filter holds
the /dev/zero pattern although it was `None` before the call. -/
theorem mapfilter_restore_cex :
    cfgSys.mapfilter = none ∧
    (get_system_data envSys cfgSys).map (fun r => r.2.mapfilter) =
      some (some "^/dev/zero$") ∧
    (some "^/dev/zero$" : Option String) ≠ none := by decide

/-! The clamped unknown row (claim C6) and the persistent mapfilter
overwrite (claim C9). -/

theorem detailRows_unknown (fh kernel modules pagetables kernelstack slab
    sreclaimable buffers filecache shm ramfs unknown u mapped f : Int)
    (row : SysRow)
    (hmem : row ∈ detailRows fh kernel modules pagetables kernelstack slab
      sreclaimable buffers filecache shm ramfs unknown u mapped f)
    (hlab : row.label = "unknown") : row.used = unknown := by
  simp only [detailRows, List.mem_cons, List.not_mem_nil, or_false] at hmem
  rcases hmem with h | h | h | h | h | h | h | h | h | h | h | h | h <;>
    subst h <;> simp_all [SysRow.label, SysRow.used]

theorem extendedRows_no_unknown
    (mapzero shmp unevictable dirty swapped memavailable : Int)
    (row : SysRow)
    (hmem : row ∈ extendedRows mapzero shmp unevictable dirty swapped
      memavailable) : row.label ≠ "unknown" := by
  simp only [extendedRows, List.mem_cons, List.not_mem_nil, or_false] at hmem
  rcases hmem with h | h | h | h | h | h | h <;>
    subst h <;> simp [SysRow.label]

theorem basicRows_no_unknown (fh kernel kd kdc u mapped f : Int)
    (row : SysRow) (hmem : row ∈ basicRows fh kernel kd kdc u mapped f) :
    row.label ≠ "unknown" := by
  simp only [basicRows, List.mem_cons, List.not_mem_nil, or_false] at hmem
  rcases hmem with h | h | h | h | h <;>
    subst h <;> simp [SysRow.label]

/-- Inversion of `mapshared`: the helper value and the mutated config. -/
theorem mapshared_config {env : Env} {config : SmemConfig} {t : Int}
    {c2 : SmemConfig} (h : mapshared env config = some (t, c2)) :
    c2 = { config with mapfilter := some "^/SYSV*" } := by
  unfold mapshared at h
  simp only [bind, Option.bind_eq_some] at h
  obtain ⟨pt, hpt, h⟩ := h
  cases h
  rfl

/-- Inversion of `mapdevzero`: the helper value and the mutated config. -/
theorem mapdevzero_config {env : Env} {config : SmemConfig} {t : Int}
    {c2 : SmemConfig} (h : mapdevzero env config = some (t, c2)) :
    c2 = { config with mapfilter := some "^/dev/zero$" } := by
  unfold mapdevzero at h
  simp only [bind, Option.bind_eq_some] at h
  obtain ⟨pt, hpt, h⟩ := h
  cases h
  rfl

/-- Inversion of the detailed branch: the rows and the final config. -/
theorem sysDetailBranch_inv {env : Env} {config : SmemConfig}
    {mt f u mappedRaw buffers sreclaimable cached fh kernel : Int}
    {lines : List SysRow} {c2 : SmemConfig}
    (h : sysDetailBranch env config mt f u mappedRaw buffers sreclaimable
      cached fh kernel = some (lines, c2)) :
    c2 = { config with mapfilter := some "^/dev/zero$" } ∧
    ∀ row ∈ lines, row.label = "unknown" → 0 ≤ row.used := by
  unfold sysDetailBranch at h
  obtain ⟨ts, hts, h⟩ := Option.bind_eq_some.mp h
  obtain ⟨shmp, configA⟩ := ts
  obtain ⟨tz, htz, h⟩ := Option.bind_eq_some.mp h
  obtain ⟨mapzero, configB⟩ := tz
  obtain ⟨shmem, hshm, h⟩ := Option.bind_eq_some.mp h
  obtain ⟨mounts, hm, h⟩ := Option.bind_eq_some.mp h
  obtain ⟨pagetables, hp, h⟩ := Option.bind_eq_some.mp h
  obtain ⟨kernelstack, hk, h⟩ := Option.bind_eq_some.mp h
  obtain ⟨slab, hs, h⟩ := Option.bind_eq_some.mp h
  have hcfgA : configA = { config with mapfilter := some "^/SYSV*" } :=
    mapshared_config hts
  have hcfgB : configB = { config with mapfilter := some "^/dev/zero$" } := by
    rw [mapdevzero_config htz, hcfgA]
  split at h
  · obtain ⟨unevictable, h1, h⟩ := Option.bind_eq_some.mp h
    obtain ⟨dirty, h2, h⟩ := Option.bind_eq_some.mp h
    obtain ⟨swaptotal, h3, h⟩ := Option.bind_eq_some.mp h
    obtain ⟨swapfree, h4, h⟩ := Option.bind_eq_some.mp h
    obtain ⟨memavailable, h5, h⟩ := Option.bind_eq_some.mp h
    cases h
    refine ⟨hcfgB, ?_⟩
    intro row hrow hlab
    rcases List.mem_append.mp hrow with hrow | hrow
    · rw [detailRows_unknown _ _ _ _ _ _ _ _ _ _ _ _ _ _ _ row hrow hlab]
      split <;> omega
    · exact absurd hlab
        (extendedRows_no_unknown _ _ _ _ _ _ row hrow)
  · cases h
    refine ⟨hcfgB, ?_⟩
    intro row hrow hlab
    rw [detailRows_unknown _ _ _ _ _ _ _ _ _ _ _ _ _ _ _ row hrow hlab]
    split <;> omega

/-- Inversion of `get_system_data` into the branch facts needed below. -/
theorem get_system_data_inv {env : Env} {config : SmemConfig}
    {lines : List SysRow} {c2 : SmemConfig}
    (h : get_system_data env config = some (lines, c2)) :
    (config.sysdetail = true →
      c2 = { config with mapfilter := some "^/dev/zero$" } ∧
      ∀ row ∈ lines, row.label = "unknown" → 0 ≤ row.used) ∧
    (config.sysdetail = false →
      c2 = config ∧ ∀ row ∈ lines, row.label ≠ "unknown") := by
  unfold get_system_data at h
  simp only [bind, Option.bind_eq_some] at h
  obtain ⟨t, ht, mt, hmt, f, hf, anonpages, ha, mappedRaw, hmr, buffers, hb,
    sreclaimable, hsr, cached, hc, h⟩ := h
  split at h
  · rename_i hsd
    have hbranch := sysDetailBranch_inv h
    refine ⟨fun _ => hbranch, fun hfalse => ?_⟩
    rw [hfalse] at hsd
    cases hsd
  · rename_i hsd
    cases h
    have hsdf : config.sysdetail = false := by
      revert hsd
      cases config.sysdetail <;> simp
    refine ⟨fun htrue => ?_, fun _ => ⟨rfl, ?_⟩⟩
    · rw [htrue] at hsdf
      cases hsdf
    · intro row hrow
      exact basicRows_no_unknown _ _ _ _ _ _ _ row hrow

/-- Claim C6: the `unknown` row of the detailed system breakdown is never
negative — the reconciliation remainder is clamped at zero before the row is
emitted (and the basic breakdown has no `unknown` row at all). -/
theorem unknown_row_nonneg (env : Env) (config : SmemConfig)
    (lines : List SysRow) (c2 : SmemConfig)
    (h : get_system_data env config = some (lines, c2)) :
    ∀ row ∈ lines, row.label = "unknown" → 0 ≤ row.used := by
  have hinv := get_system_data_inv h
  intro row hrow hlab
  cases hsd : config.sysdetail with
  | true => exact (hinv.1 hsd).2 row hrow hlab
  | false => exact absurd hlab ((hinv.2 hsd).2 row hrow)

/-- Witness for C6 on the complete system fixture. -/
theorem unknown_row_nonneg_witness :
    get_system_data envSys cfgSys = some (linesSys, cfgSysAfter) ∧
    ∀ row ∈ linesSys, row.label = "unknown" → 0 ≤ row.used :=
  ⟨by decide,
    unknown_row_nonneg envSys cfgSys linesSys cfgSysAfter (by decide)⟩

/-- Claim C9 (amended): the mapping-name filter overwrite persists. After
`get_system_data` returns in detailed mode the configuration's mapping-name
filter equals the /dev/zero helper pattern (the last helper executed), and
every other configuration field is unchanged; in basic mode the whole
configuration is unchanged. -/
theorem mapfilter_not_restored (env : Env) (config : SmemConfig)
    (lines : List SysRow) (c2 : SmemConfig)
    (h : get_system_data env config = some (lines, c2)) :
    (config.sysdetail = true →
      c2 = { config with mapfilter := some "^/dev/zero$" }) ∧
    (config.sysdetail = false → c2 = config) := by
  have hinv := get_system_data_inv h
  exact ⟨fun hsd => (hinv.1 hsd).1, fun hsd => (hinv.2 hsd).1⟩

/-- Witness for C9 on the complete system fixture. -/
theorem mapfilter_not_restored_witness :
    get_system_data envSys cfgSys = some (linesSys, cfgSysAfter) ∧
    ((cfgSys.sysdetail = true →
        cfgSysAfter = { cfgSys with mapfilter := some "^/dev/zero$" }) ∧
      (cfgSys.sysdetail = false → cfgSysAfter = cfgSys)) :=
  ⟨by decide,
    mapfilter_not_restored envSys cfgSys linesSys cfgSysAfter (by decide)⟩

end Smem2
